import Mathlib

/-!
Verification development for the `library_scraper` repository.

The definitions below are shallow embeddings of the aggregation pipeline in
`library_all_events.py` (retry executor, deduplication, date normalization,
time sort keys, result collection) and of the query/filter/export layer in
`library_web_gui.py` (`filter_events`, `matches_search`, `group_events`,
`parse_event_date`, `parse_time_to_sortable`).

Strings are modelled as lists of characters over the ASCII fragment the data
actually uses; Python's `str.strip`/`str.lower` are modelled on that fragment.
External network services (the geocoder) and floating-point routines
(`haversine_distance`, `round`, difflib similarity ratios) are taken as
parameters of the functions that consume them: the claims under study do not
depend on their numeric values.
-/

/-- Whitespace characters recognised by Python's `str.strip` / `\s` on the
ASCII fragment. -/
def isWsChar (c : Char) : Bool :=
  c = ' ' || c = '\t' || c = '\n' || c = '\r' || c = Char.ofNat 11 || c = Char.ofNat 12

/-- ASCII lower-casing of one character (model of `str.lower`). -/
def lowChar (c : Char) : Char :=
  if 'A' ≤ c ∧ c ≤ 'Z' then Char.ofNat (c.toNat + 32) else c

/-- ASCII lower-casing of a character list. -/
def lowerL (l : List Char) : List Char := l.map lowChar

/-- Model of Python `str.strip()`: drop leading and trailing whitespace. -/
def pyStrip (l : List Char) : List Char :=
  ((l.dropWhile isWsChar).reverse.dropWhile isWsChar).reverse

/-- Decimal digit test. -/
def isDigitChar (c : Char) : Bool := '0' ≤ c && c ≤ '9'

/-- Word-character test for the regex class `\w` (ASCII fragment). -/
def isWordChar (c : Char) : Bool := c.isAlpha || isDigitChar c || c = '_'

/-- Numeric value of a decimal digit character. -/
def digitVal (c : Char) : Nat := c.toNat - 48

/-- Decimal digit character for a value below ten. -/
def digitChar10 (n : Nat) : Char := Char.ofNat (48 + n)

/-- Parse a list of digit characters as a natural number (most significant
digit first). -/
def parseNatL (l : List Char) : Nat := l.foldl (fun a c => 10 * a + digitVal c) 0

/-- Decimal rendering of a natural number. -/
def natChars (n : Nat) : List Char :=
  if _h : n < 10 then [digitChar10 n]
  else natChars (n / 10) ++ [digitChar10 (n % 10)]
decreasing_by exact Nat.div_lt_self (by omega) (by omega)

/-- Two-digit zero-padded decimal rendering (Python `%02d` / `%m` / `%d`). -/
def natChars2 (n : Nat) : List Char :=
  if n < 10 then ['0', digitChar10 n] else natChars n

/-- Does `pat` occur at the start of `l`?  (Model of a literal-prefix test.) -/
def leadsWith : List Char → List Char → Bool
  | [], _ => true
  | _ :: _, [] => false
  | p :: ps, c :: cs => p = c && leadsWith ps cs

/-- Does `pat` occur anywhere inside `hay`?  (Model of Python `pat in hay`.) -/
def hasSub (hay pat : List Char) : Bool :=
  leadsWith pat hay ||
    match hay with
    | [] => false
    | _ :: t => hasSub t pat

/-- Split a character list at every space character (the separator view of the
anchored regexes `\w+ \w+ \d{1,2} \d{4}` and `\w{3} \d{1,2} \d{4}`: since
neither `\w` nor `\d` matches a space, a full match decomposes the string at
its spaces). -/
def splitSp : List Char → List (List Char)
  | [] => [[]]
  | c :: rest =>
    if c = ' ' then [] :: splitSp rest
    else
      match splitSp rest with
      | s :: ss => (c :: s) :: ss
      | [] => [[c]]

/-- Split a character list at every dash (used for the `-`-separated fields of
an ISO date). -/
def splitDash : List Char → List (List Char)
  | [] => [[]]
  | c :: rest =>
    if c = '-' then [] :: splitDash rest
    else
      match splitDash rest with
      | s :: ss => (c :: s) :: ss
      | [] => [[c]]

/-- Calendar date (the value carried by a parsed `datetime`). -/
structure Date where
  year : Nat
  month : Nat
  day : Nat
deriving DecidableEq, Repr

/-- Leap-year rule of the proleptic Gregorian calendar (Python `calendar`). -/
def isLeap (y : Nat) : Bool := (y % 4 = 0 && y % 100 ≠ 0) || y % 400 = 0

/-- Number of days in a month, as validated by `datetime.date`. -/
def daysInMonth (y m : Nat) : Nat :=
  if m = 2 then (if isLeap y then 29 else 28)
  else if m = 4 ∨ m = 6 ∨ m = 9 ∨ m = 11 then 30
  else 31

/-- Construct a date exactly when `datetime.date(y, m, d)` would succeed
(together with the 1-31 day gate of the `%d` directive, which is implied by
`d ≤ daysInMonth`). -/
def mkValidDate (y m d : Nat) : Option Date :=
  if 1 ≤ y ∧ 1 ≤ m ∧ m ≤ 12 ∧ 1 ≤ d ∧ d ≤ daysInMonth y m then some ⟨y, m, d⟩
  else none

/-- Day of the week of a Gregorian date (0 = Sunday), by Sakamoto's method;
models `datetime.date.weekday` as consumed by `strftime("%A")`. -/
def weekdayOf (y m d : Nat) : Nat :=
  let t := [0, 3, 2, 5, 0, 3, 5, 1, 4, 6, 2, 4]
  let y' := if m < 3 then y - 1 else y
  (y' + y' / 4 + 6 * (y' / 100) + y' / 400 + t.getD (m - 1) 0 + d) % 7

/-- Full weekday names in `%A` order indexed by `weekdayOf` (0 = Sunday). -/
def weekdayNames : List (List Char) :=
  ["Sunday".data, "Monday".data, "Tuesday".data, "Wednesday".data,
   "Thursday".data, "Friday".data, "Saturday".data]

/-- Lower-cased weekday names, as matched case-insensitively by `%A`. -/
def weekdayNamesLower : List (List Char) := weekdayNames.map lowerL

/-- Full month names in `%B` order (index 0 is January). -/
def monthNames : List (List Char) :=
  ["January".data, "February".data, "March".data, "April".data, "May".data,
   "June".data, "July".data, "August".data, "September".data, "October".data,
   "November".data, "December".data]

/-- Lower-cased month names, as matched case-insensitively by `%B`. -/
def monthNamesLower : List (List Char) := monthNames.map lowerL

/-- Lower-cased month abbreviations, as matched case-insensitively by `%b`. -/
def monthAbbrsLower : List (List Char) :=
  ["jan".data, "feb".data, "mar".data, "apr".data, "may".data, "jun".data,
   "jul".data, "aug".data, "sep".data, "oct".data, "nov".data, "dec".data]

/-- Month number (1-12) of a lower-cased full month name. -/
def monthFromFull (s : List Char) : Option Nat :=
  (monthNamesLower.findIdx? (· = s)).map (· + 1)

/-- Month number (1-12) of a lower-cased month abbreviation. -/
def monthFromAbbr (s : List Char) : Option Nat :=
  (monthAbbrsLower.findIdx? (· = s)).map (· + 1)

/-- A four-digit zero-padded year rendering (`%Y`). -/
def natChars4 (n : Nat) : List Char :=
  if n < 10 then ['0', '0', '0', digitChar10 n]
  else if n < 100 then ['0', '0'] ++ natChars n
  else if n < 1000 then ['0'] ++ natChars n
  else natChars n

/-- Rendering of a date by `strftime("%A, %B %d, %Y")`, the format written
back into the `Date` field by the normalization pass of `main` in
`library_all_events.py` (`%d` is zero-padded, `%Y` four digits). -/
def strftimeFull (d : Date) : List Char :=
  weekdayNames.getD (weekdayOf d.year d.month d.day) [] ++ ", ".data ++
    monthNames.getD (d.month - 1) [] ++ " ".data ++ natChars2 d.day ++
    ", ".data ++ natChars4 d.year

/-! ### Date normalization (`library_all_events.py`, `main`, lines 1732-1756)

The normalization pass first cleans the raw text with
`date_str.replace(',', '').replace(' at', '')`, then tries, in order, the
format/regex pairs `("%A %B %d %Y", \w+ \w+ \d{1,2} \d{4})`,
`("%b %d %Y", \w{3} \d{1,2} \d{4})`, `("%Y-%m-%d", \d{4}-\d{2}-\d{2})`:
a format is attempted only when its anchored regex fully matches, and a
`strptime` failure falls through to the next pair. -/

/-- Model of `str.replace(',', '')`. -/
def removeCommas (l : List Char) : List Char := l.filter (· ≠ ',')

/-- Model of `str.replace(' at', '')`: delete every (leftmost-first,
non-overlapping) occurrence of the three-character pattern. -/
def replaceSpaceAt : List Char → List Char
  | ' ' :: 'a' :: 't' :: rest => replaceSpaceAt rest
  | c :: rest => c :: replaceSpaceAt rest
  | [] => []

/-- Full-match test for `\w+ \w+ \d{1,2} \d{4}` (the gate of `%A %B %d %Y`). -/
def gateFull (cs : List Char) : Bool :=
  match splitSp cs with
  | [w, mo, d, y] =>
    !w.isEmpty && w.all isWordChar && !mo.isEmpty && mo.all isWordChar &&
      d.all isDigitChar && 1 ≤ d.length && d.length ≤ 2 &&
      y.all isDigitChar && y.length = 4
  | _ => false

/-- Full-match test for `\w{3} \d{1,2} \d{4}` (the gate of `%b %d %Y`). -/
def gateAbbr (cs : List Char) : Bool :=
  match splitSp cs with
  | [mo, d, y] =>
    mo.length = 3 && mo.all isWordChar &&
      d.all isDigitChar && 1 ≤ d.length && d.length ≤ 2 &&
      y.all isDigitChar && y.length = 4
  | _ => false

/-- Full-match test for `\d{4}-\d{2}-\d{2}` (the gate of `%Y-%m-%d`). -/
def gateIso (cs : List Char) : Bool :=
  match cs with
  | [a, b, c, d, e, f, g, h, i, j] =>
    [a, b, c, d].all isDigitChar && e = '-' && [f, g].all isDigitChar &&
      h = '-' && [i, j].all isDigitChar
  | _ => false

/-- `strptime(s, "%A %B %d %Y")` on a string already known to match
`gateFull` (so the separators are single spaces and the numeric segments are
digit runs): the weekday and month names are matched case-insensitively, and
the day/month/year values are validated as by `datetime.date`. -/
def strptimeFullFmt (cs : List Char) : Option Date :=
  match splitSp cs with
  | [w, mo, d, y] =>
    if weekdayNamesLower.contains (lowerL w) then
      match monthFromFull (lowerL mo) with
      | some m => mkValidDate (parseNatL y) m (parseNatL d)
      | none => none
    else none
  | _ => none

/-- `strptime(s, "%b %d %Y")` on a string already known to match `gateAbbr`. -/
def strptimeAbbrFmt (cs : List Char) : Option Date :=
  match splitSp cs with
  | [mo, d, y] =>
    match monthFromAbbr (lowerL mo) with
    | some m => mkValidDate (parseNatL y) m (parseNatL d)
    | none => none
  | _ => none

/-- `strptime(s, "%Y-%m-%d")` on a string already known to match `gateIso`. -/
def strptimeIsoFmt (cs : List Char) : Option Date :=
  match splitDash cs with
  | [y, m, d] => mkValidDate (parseNatL y) (parseNatL m) (parseNatL d)
  | _ => none

/-- The date-normalization step of `main`: returns the parsed calendar date
(`dt_obj`), or `none` for the `datetime.max` "unknown" sentinel (empty dates,
the `'Not found'` sentinel, and text matched by no format). -/
def normalizeDateField (s : String) : Option Date :=
  if s = "" ∨ s = "Not found" then none
  else
    let c := replaceSpaceAt (removeCommas s.data)
    match (if gateFull c then strptimeFullFmt c else none) with
    | some d => some d
    | none =>
      match (if gateAbbr c then strptimeAbbrFmt c else none) with
      | some d => some d
      | none => if gateIso c then strptimeIsoFmt c else none

/-! ### Time sort keys (`parse_time_to_sortable`, identical in
`library_all_events.py` lines 199-218 and `library_web_gui.py` lines 313-331)

The function lower-cases and strips the text, keeps the part after the last
`'@'`, keeps the part before the first `'-'`/`'–'` and strips it, returns
midnight for text containing `'all day'`, and otherwise tries the format list
`['%I:%M %p', '%I:%M%p', '%-I:%M %p', '%I %p', '%-I%p']` on the text with its
spaces removed.  The `'%-I...'` entries are invalid `strptime` directives in
Python and always raise `ValueError`, so only the first, second and fourth
formats can ever match; a format containing a space requires at least one
whitespace character in the (space-stripped) input at that position.  Times
are modelled as minutes after midnight; `datetime.min.time()` is `0`. -/

/-- The part of a string after its last `'@'` (`s.split('@')[-1]`). -/
def afterLastAt (l : List Char) : List Char :=
  ((l.reverse.takeWhile (· ≠ '@')).reverse)

/-- The part of a string before its first `'-'` or en-dash
(`re.split(r'–|-', s)[0]`). -/
def beforeDash (l : List Char) : List Char :=
  l.takeWhile (fun c => c ≠ '-' ∧ c ≠ '–')

/-- Model of `str.replace(" ", "")`. -/
def removeSpaces (l : List Char) : List Char := l.filter (· ≠ ' ')

/-- The alternation `(1[0-2]|0[1-9]|[1-9])` of the `%I` directive: candidate
(hour, rest) parses in the order the regex engine tries them. -/
def hourAlts : List Char → List (Nat × List Char)
  | c1 :: c2 :: rest =>
    (if c1 = '1' ∧ isDigitChar c2 ∧ digitVal c2 ≤ 2 then
      [(10 + digitVal c2, rest)] else []) ++
    (if c1 = '0' ∧ isDigitChar c2 ∧ 1 ≤ digitVal c2 then
      [(digitVal c2, rest)] else []) ++
    (if isDigitChar c1 ∧ 1 ≤ digitVal c1 then
      [(digitVal c1, c2 :: rest)] else [])
  | [c1] => if isDigitChar c1 ∧ 1 ≤ digitVal c1 then [(digitVal c1, [])] else []
  | [] => []

/-- The alternation `([0-5]\d|\d)` of the `%M` directive. -/
def minuteAlts : List Char → List (Nat × List Char)
  | c1 :: c2 :: rest =>
    (if isDigitChar c1 ∧ digitVal c1 ≤ 5 ∧ isDigitChar c2 then
      [(10 * digitVal c1 + digitVal c2, rest)] else []) ++
    (if isDigitChar c1 then [(digitVal c1, c2 :: rest)] else [])
  | [c1] => if isDigitChar c1 then [(digitVal c1, [])] else []
  | [] => []

/-- The `%p` directive against the end of the (already lower-cased) input:
`some true` for pm, `some false` for am. -/
def ampmEnd : List Char → Option Bool
  | ['a', 'm'] => some false
  | ['p', 'm'] => some true
  | _ => none

/-- Minutes after midnight for a 12-hour clock reading, as converted by
`strptime` (`12 am` is hour 0, `12 pm` stays 12). -/
def minutesOf (h m : Nat) (pm : Bool) : Nat :=
  (if pm then (if h = 12 then 12 else h + 12) else (if h = 12 then 0 else h)) * 60 + m

/-- `strptime` with format `'%I:%M %p'` (when `needWs` is `true`) or
`'%I:%M%p'` (when `needWs` is `false`): the format-string space compiles to
`\s+`, requiring at least one whitespace character. -/
def fmtIMp (needWs : Bool) (cs : List Char) : Option Nat :=
  (hourAlts cs).findSome? fun hr =>
    match hr.2 with
    | ':' :: r2 =>
      (minuteAlts r2).findSome? fun mr =>
        if needWs then
          match mr.2 with
          | c :: _ =>
            if isWsChar c then
              (ampmEnd (mr.2.dropWhile isWsChar)).map (minutesOf hr.1 mr.1)
            else none
          | [] => none
        else (ampmEnd mr.2).map (minutesOf hr.1 mr.1)
    | _ => none

/-- `strptime` with format `'%I %p'`. -/
def fmtIp (cs : List Char) : Option Nat :=
  (hourAlts cs).findSome? fun hr =>
    match hr.2 with
    | c :: _ =>
      if isWsChar c then (ampmEnd (hr.2.dropWhile isWsChar)).map (fun pm => minutesOf hr.1 0 pm)
      else none
    | [] => none

/-- The format loop of `parse_time_to_sortable` on the space-stripped text
(the `'%-I...'` formats always raise and are skipped). -/
def tryTimeFormats (cs : List Char) : Option Nat :=
  match fmtIMp true cs with
  | some v => some v
  | none =>
    match fmtIMp false cs with
    | some v => some v
    | none => fmtIp cs

/-- Model of `parse_time_to_sortable`: a sortable key in minutes after
midnight, with `datetime.min.time()` (i.e. `0`) for "all day" text and for
text no format parses. -/
def parseTimeToSortable (s : String) : Nat :=
  let t1 := afterLastAt (pyStrip (lowerL s.data))
  let t2 := pyStrip (beforeDash t1)
  if hasSub t2 "all day".data then 0
  else
    match tryTimeFormats (removeSpaces t2) with
    | some v => v
    | none => 0

/-- The preprocessed, space-stripped text `parse_time_to_sortable` hands to
its format loop; `tryTimeFormats` returns `none` on it exactly when the
function falls back to `datetime.min.time()` without parsing. -/
def timeFormatInput (s : String) : List Char :=
  removeSpaces (pyStrip (beforeDash (afterLastAt (pyStrip (lowerL s.data)))))

/-! ### Raw event records and the aggregation pipeline of
`library_all_events.py` `main` -/

/-- A raw event record as produced by the source adapters (the dict fields
`main` reads: `Library`, `Title`, `Date`, `Time`, `Description`). -/
structure REvent where
  library : String
  title : String
  date : String
  time : String
  description : String
deriving DecidableEq, Repr

/-- The deduplication identity
`(event.get('Library'), event.get('Title'), event.get('Date'), event.get('Time'))`. -/
def eventKey (e : REvent) : String × String × String × String :=
  (e.library, e.title, e.date, e.time)

/-- The deduplication loop of `main` (lines 1699-1705): one linear pass with a
`seen` set of identity keys, appending a record only when its key is new. -/
def dedupGo (seen : List (String × String × String × String)) :
    List REvent → List REvent
  | [] => []
  | e :: rest =>
    if eventKey e ∈ seen then dedupGo seen rest
    else e :: dedupGo (eventKey e :: seen) rest

/-- `unique_events` as computed by `main` from `all_events`. -/
def dedupEvents (l : List REvent) : List REvent := dedupGo [] l

/-- A record after the date/time normalization pass of `main`: the `Date`
field is rewritten to `strftime("%A, %B %d, %Y")` when a format parsed, and
the helper values `datetime_obj` (`none` models the `datetime.max` sentinel)
and `time_obj` are attached.  `timeObj = none` models a record with no
`time_obj` key: the loop `continue`s past the `time_obj` assignment when the
`Date` field is empty or `'Not found'`. -/
structure NEvent where
  library : String
  title : String
  date : String
  time : String
  description : String
  datetimeObj : Option Date
  timeObj : Option Nat
deriving DecidableEq, Repr

/-- The per-record normalization step of `main` (lines 1721-1763).  A record
whose `Date` is empty or `'Not found'` gets the `datetime.max` sentinel and
is `continue`d over (line 1729), so its `Date` stays as-is and no `time_obj`
is attached; every other record gets `time_obj = parse_time_to_sortable`. -/
def normEvent (e : REvent) : NEvent :=
  if e.date = "" ∨ e.date = "Not found" then
    { library := e.library
      title := e.title
      date := e.date
      time := e.time
      description := e.description
      datetimeObj := none
      timeObj := none }
  else
    let dt := normalizeDateField e.date
    { library := e.library
      title := e.title
      date := match dt with
              | some d => String.mk (strftimeFull d)
              | none => e.date
      time := e.time
      description := e.description
      datetimeObj := dt
      timeObj := some (parseTimeToSortable e.time) }

/-- Deduplication followed by per-record normalization, in the order `main`
applies them. -/
def dedupNormalize (l : List REvent) : List NEvent :=
  (dedupEvents l).map normEvent

/-- The merge step after `asyncio.gather(*tasks, return_exceptions=True)`:
`all_events = [event for res in all_results if isinstance(res, list) for event
in res]` keeps, in task order, the records of every adapter that returned a
list, and skips the exception values of the adapters that failed. -/
def collectEvents (results : List (Except String (List REvent))) : List REvent :=
  results.foldr
    (fun r acc =>
      match r with
      | .ok l => l ++ acc
      | .error _ => acc)
    []

/-! ### Retry/backoff executor (`retry_with_backoff`,
`library_all_events.py` lines 116-148)

The wrapped operation is modelled as a map from the attempt index to the
outcome of calling it on that attempt.  The outcome mirrors the `except`
clauses of the source: transient failures (connection errors and timeouts),
`aiohttp.ClientError`s carrying a 429 rate-limit signal (with the optional
`Retry-After` header text), other `aiohttp.ClientError`s, and all remaining
exceptions.  The executor result records the value or final error, the
sequence of back-off waits (in the `delay` unit), and the number of attempts
made. -/

inductive CallOutcome (α : Type) where
  | ok (v : α)
  | transient (e : String)
  | rateLimited (retryAfter : Option String) (e : String)
  | clientError (e : String)
  | otherError (e : String)

/-- Python `str.isdigit()` on the ASCII fragment. -/
def isDigitStr (s : String) : Bool := !s.data.isEmpty && s.data.all isDigitChar

/-- The wait chosen in the 429 branch: the numeric `Retry-After` hint capped
at 60 seconds, else the exponential backoff capped at 30 seconds. -/
def rateLimitWait (retryAfter : Option String) (delay attempt : Nat) : Nat :=
  match retryAfter with
  | some s => if isDigitStr s then min (parseNatL s.data) 60 else min (delay * 2 ^ attempt) 30
  | none => min (delay * 2 ^ attempt) 30

/-- One execution of `for attempt in range(max_retries)` from iteration
`attempt` with `remaining` iterations left: returns the final result (`none`
models Python's implicit `return None` when the loop runs zero times), the
waits slept, and the number of calls made. -/
def retryGo (f : Nat → CallOutcome α) (delay : Nat) :
    (remaining attempt : Nat) → Option (Except String α) × List Nat × Nat
  | 0, _ => (none, [], 0)
  | r + 1, attempt =>
    match f attempt with
    | .ok v => (some (.ok v), [], 1)
    | .transient e =>
      if r = 0 then (some (.error e), [], 1)
      else
        let rest := retryGo f delay r (attempt + 1)
        (rest.1, delay * 2 ^ attempt :: rest.2.1, rest.2.2 + 1)
    | .rateLimited ra e =>
      if r = 0 then (some (.error e), [], 1)
      else
        let rest := retryGo f delay r (attempt + 1)
        (rest.1, rateLimitWait ra delay attempt :: rest.2.1, rest.2.2 + 1)
    | .clientError e => (some (.error e), [], 1)
    | .otherError e => (some (.error e), [], 1)

/-- Model of `retry_with_backoff(func, max_retries=maxRetries, delay=delay)`. -/
def retryWithBackoff (f : Nat → CallOutcome α) (maxRetries delay : Nat) :
    Option (Except String α) × List Nat × Nat :=
  retryGo f delay maxRetries 0

/-! ### `library_web_gui.py`: date parsing, search, filtering, grouping -/

/-- ASCII lower-casing of a string. -/
def lowerStr (s : String) : String := String.mk (lowerL s.data)

/-- Split a character list at every comma (model of `str.split(',')`). -/
def splitComma : List Char → List (List Char)
  | [] => [[]]
  | c :: rest =>
    if c = ',' then [] :: splitComma rest
    else
      match splitComma rest with
      | s :: ss => (c :: s) :: ss
      | [] => [[c]]

/-- The double-quote character (written by code point to keep the source free
of quote literals). -/
def quoteChar : Char := Char.ofNat 34

/-- First name of `names` (in order) that is a case-insensitive prefix of
`cs`, with its index and the remaining input; models the alternation a
`strptime` name directive (`%A`, `%B`) compiles to.  None of the full
weekday/month names is a prefix of another, so the order is immaterial. -/
def namePrefixCI (names : List (List Char)) (cs : List Char) : Option (Nat × List Char) :=
  (names.findIdx? (fun n => leadsWith (lowerL n) (lowerL cs))).map
    (fun i => (i, cs.drop ((names.getD i []).length)))

/-- The alternation `(3[01]|[12]\d|0[1-9]|[1-9])` of the `%d` directive:
candidate (day, rest) parses in regex order. -/
def dayAlts : List Char → List (Nat × List Char)
  | c1 :: c2 :: rest =>
    (if c1 = '3' ∧ (c2 = '0' ∨ c2 = '1') then [(30 + digitVal c2, rest)] else []) ++
    (if (c1 = '1' ∨ c1 = '2') ∧ isDigitChar c2 then
      [(10 * digitVal c1 + digitVal c2, rest)] else []) ++
    (if c1 = '0' ∧ isDigitChar c2 ∧ 1 ≤ digitVal c2 then [(digitVal c2, rest)] else []) ++
    (if isDigitChar c1 ∧ 1 ≤ digitVal c1 then [(digitVal c1, c2 :: rest)] else [])
  | [c1] => if isDigitChar c1 ∧ 1 ≤ digitVal c1 then [(digitVal c1, [])] else []
  | [] => []

/-- Require at least one whitespace character and consume the run (the `\s+`
a space in a `strptime` format compiles to). -/
def wsPlus (cs : List Char) : Option (List Char) :=
  match cs with
  | c :: _ => if isWsChar c then some (cs.dropWhile isWsChar) else none
  | [] => none

/-- Exactly four digits (`%Y`). -/
def yearFour : List Char → Option (Nat × List Char)
  | a :: b :: c :: d :: rest =>
    if [a, b, c, d].all isDigitChar then some (parseNatL [a, b, c, d], rest) else none
  | _ => none

/-- `strptime(s, "%A, %B %d, %Y")` as a full match. -/
def parseFmtWeekdayFull (cs : List Char) : Option Date :=
  match namePrefixCI weekdayNames cs with
  | some (_, r1) =>
    match r1 with
    | ',' :: r2 =>
      match wsPlus r2 with
      | some r3 =>
        match namePrefixCI monthNames r3 with
        | some (mi, r4) =>
          match wsPlus r4 with
          | some r5 =>
            (dayAlts r5).findSome? fun dr =>
              match dr.2 with
              | ',' :: r6 =>
                match wsPlus r6 with
                | some r7 =>
                  match yearFour r7 with
                  | some (y, []) => mkValidDate y (mi + 1) dr.1
                  | _ => none
                | none => none
              | _ => none
          | none => none
        | none => none
      | none => none
    | _ => none
  | none => none

/-- `strptime(s, "%Y-%m-%d")` as a full match, with the 1-2 digit month/day
fields the bare format accepts (no surrounding regex gate here). -/
def parseYMDLenient (cs : List Char) : Option Date :=
  match splitDash cs with
  | [y, m, d] =>
    if y.length = 4 ∧ y.all isDigitChar ∧ 1 ≤ m.length ∧ m.length ≤ 2 ∧
        m.all isDigitChar ∧ 1 ≤ d.length ∧ d.length ≤ 2 ∧ d.all isDigitChar then
      mkValidDate (parseNatL y) (parseNatL m) (parseNatL d)
    else none
  | _ => none

/-- Model of `parse_event_date` (lines 302-311): `None` for empty input, then
the formats `"%A, %B %d, %Y"` and `"%Y-%m-%d"` in order. -/
def parseEventDate (s : String) : Option Date :=
  if s = "" then none
  else
    match parseFmtWeekdayFull s.data with
    | some d => some d
    | none => parseYMDLenient s.data

/-- An event row of the web GUI (the dict fields `filter_events`,
`group_events` and the exporters read).  `distance` models the `_distance`
key, absent (`none`) until a geo-filtered pass writes it. -/
structure WEvent where
  title : String
  description : String
  location : String
  ageGroup : String
  library : String
  date : String
  time : String
  link : String
  distance : Option Rat
deriving DecidableEq, Repr

/-- Field access `event.get(name, '')` for the canonical searchable fields. -/
def fieldValue (ev : WEvent) : String → String
  | "Title" => ev.title
  | "Description" => ev.description
  | "Location" => ev.location
  | "Age Group" => ev.ageGroup
  | "Library" => ev.library
  | _ => ""

/-- The `field_alias` table of `filter_events`. -/
def fieldAlias (s : String) : Option String :=
  if s = "title" then some "Title"
  else if s = "description" then some "Description"
  else if s = "location" then some "Location"
  else if s = "age" then some "Age Group"
  else if s = "age_group" then some "Age Group"
  else if s = "type" then some "Age Group"
  else if s = "library" then some "Library"
  else none

/-- `search_fields_list`: the requested fields resolved through the alias
table, defaulting to title/description/location when none resolves. -/
def resolveSearchFields (sfs : List String) : List String :=
  let resolved := sfs.filterMap (fun sf => fieldAlias (lowerStr sf))
  if resolved.isEmpty then ["Title", "Description", "Location"] else resolved

/-- Model of `" ".join(values_list)`. -/
def joinSpace : List (List Char) → List Char
  | [] => []
  | [v] => v
  | v :: vs => v ++ ' ' :: joinSpace vs

/-- The per-match step of the token loop (library_web_gui.py lines 387-389):
`token = (m.group(1) or m.group(2) or '').strip(); if token:
search_tokens.append(token)` — the match text is stripped, and dropped when
nothing remains of it. -/
def pushToken (raw : List Char) (rest : List (List Char)) : List (List Char) :=
  if (pyStrip raw).isEmpty then rest else pyStrip raw :: rest

/-- The search tokenization loop over `re.finditer(r'"([^"]+)"|(\S+)', raw)`:
at each position, a quoted run with a non-empty body is one match without its
quotes; otherwise a maximal non-whitespace run (which may contain quote
characters) is one match.  Each match goes through `pushToken`: it is
stripped and kept only when non-empty. -/
def tokenizeSearch : List Char → List (List Char)
  | [] => []
  | c :: rest =>
    if isWsChar c then tokenizeSearch rest
    else if c = quoteChar then
      if (rest.takeWhile (· ≠ quoteChar)).length < rest.length ∧
          ¬(rest.takeWhile (· ≠ quoteChar)).isEmpty then
        pushToken (rest.takeWhile (· ≠ quoteChar))
          (tokenizeSearch (rest.drop ((rest.takeWhile (· ≠ quoteChar)).length + 1)))
      else
        pushToken (c :: rest.takeWhile (fun d => !isWsChar d))
          (tokenizeSearch (rest.dropWhile (fun d => !isWsChar d)))
    else
      pushToken (c :: rest.takeWhile (fun d => !isWsChar d))
        (tokenizeSearch (rest.dropWhile (fun d => !isWsChar d)))
termination_by l => l.length
decreasing_by
  all_goals simp_wf
  · omega
  · have := (List.dropWhile_sublist (l := t) (fun d => !isWsChar d)).length_le
    omega
  · have := (List.dropWhile_sublist (l := t) (fun d => !isWsChar d)).length_le
    omega

/-- Model of the `matches_search` closure of `filter_events` (lines 418-446).
`searchMode` is the already-normalized mode; `fuzzyR` stands for the
floating-point `SequenceMatcher(None, a, b).ratio()`. -/
def matchesSearch (searchTerm searchMode : String) (searchFields : List String)
    (fuzzyR : String → String → Rat) (ev : WEvent) : Bool :=
  if searchTerm = "" then true
  else
    let fieldsL := resolveSearchFields searchFields
    let valuesList := fieldsL.map (fun f => lowerL (fieldValue ev f).data)
    let combined := joinSpace valuesList
    let raw := pyStrip (lowerL searchTerm.data)
    if raw.isEmpty then true
    else if searchMode = "exact" then hasSub combined raw
    else if searchMode = "fuzzy" then
      let score := fun (needle : List Char) =>
        ((valuesList.filter (fun v => !v.isEmpty)).map
          (fun v => fuzzyR (String.mk needle) (String.mk v))).foldr max 0
      if !valuesList.any (fun v => !v.isEmpty) then false
      else
        decide ((65 : Rat) / 100 ≤ score raw) ||
          (tokenizeSearch raw).any (fun t => decide ((65 : Rat) / 100 ≤ score t))
    else if hasSub combined raw then true
    else if (tokenizeSearch raw).isEmpty then true
    else if searchMode = "all" then (tokenizeSearch raw).all (fun t => hasSub combined t)
    else (tokenizeSearch raw).any (fun t => hasSub combined t)

/-- The hardcoded library coordinate table of `get_library_coordinates`
(latitude/longitude, as exact rationals). -/
def libraryCoordsTable : List (String × (Rat × Rat)) :=
  [("CPL Budlong Woods", (419748 / 10000, -876677 / 10000)),
   ("CPL Edgebrook", (419917 / 10000, -877581 / 10000)),
   ("Des Plaines", (420334 / 10000, -878834 / 10000)),
   ("Evanston", (420450 / 10000, -876877 / 10000)),
   ("Forest Preserves of Cook County", (418950 / 10000, -878031 / 10000)),
   ("Glencoe", (421372 / 10000, -877581 / 10000)),
   ("Hoffman Estates", (420631 / 10000, -880834 / 10000)),
   ("Lincolnwood", (420075 / 10000, -877220 / 10000)),
   ("Morton Grove", (420406 / 10000, -877834 / 10000)),
   ("Niles", (420281 / 10000, -878009 / 10000)),
   ("Park Ridge", (420111 / 10000, -878406 / 10000)),
   ("Skokie", (420406 / 10000, -877334 / 10000)),
   ("Skokie Park District", (420406 / 10000, -877220 / 10000)),
   ("Wilmette", (420722 / 10000, -877220 / 10000))]

/-- Model of `get_library_coordinates(library_name, location)`: the hardcoded
table lookup (the `location` argument is unused by the source as well). -/
def getLibraryCoordinates (libraryName _location : String) : Option (Rat × Rat) :=
  (libraryCoordsTable.find? (fun e => e.1 = libraryName)).map (·.2)

/-- The criteria record mirroring `filter_events`' keyword parameters.
`maxDistance` uses `none` for Python `None`. -/
structure FilterCriteria where
  libraryFilters : List String
  typeFilters : List String
  searchTerm : String
  startDate : String
  endDate : String
  dateFilter : String
  searchFields : List String
  searchMode : String
  userAddress : String
  maxDistance : Option Rat

/-- `search_mode = (search_mode or 'any').lower()`, defaulting to `'any'`
outside the recognised set. -/
def normalizeMode (m : String) : String :=
  let m' := lowerStr m
  if m' = "any" ∨ m' = "all" ∨ m' = "exact" ∨ m' = "fuzzy" then m' else "any"

/-- `get_event_types`: the comma-split, stripped, non-empty parts of the
`Age Group` field, else the raw field as a singleton when non-empty. -/
def getEventTypes (ev : WEvent) : List String :=
  let parts := (((splitComma ev.ageGroup.data).map pyStrip).filter
    (fun p => !p.isEmpty)).map String.mk
  if !parts.isEmpty then parts
  else if ev.ageGroup ≠ "" then [ev.ageGroup]
  else []

/-- Strict lexicographic order on dates (Python `date` comparison). -/
def dateLtB (a b : Date) : Bool :=
  a.year < b.year ∨ (a.year = b.year ∧ (a.month < b.month ∨
    (a.month = b.month ∧ a.day < b.day)))

/-- The `matches_date` closure: an exact match against `date_filter` when it
parsed, else the inclusive `[start, end]` window (records without a parsable
date fail any active bound). -/
def matchesDate (targetDate startDateObj endDateObj : Option Date) (ev : WEvent) : Bool :=
  match targetDate with
  | some t => parseEventDate ev.date = some t
  | none =>
    if startDateObj.isSome ∨ endDateObj.isSome then
      match parseEventDate ev.date with
      | none => false
      | some d =>
        (match startDateObj with
         | some s => !dateLtB d s
         | none => true) &&
        (match endDateObj with
         | some e => !dateLtB e d
         | none => true)
    else true

/-- The non-geo criteria of the single-pass loop: library membership, tag-set
intersection, search, date. -/
def passesPre (selectedLibs selectedTypes : Option (List String))
    (searchTerm searchMode : String) (searchFields : List String)
    (fuzzyR : String → String → Rat)
    (targetDate startDateObj endDateObj : Option Date) (ev : WEvent) : Bool :=
  (match selectedLibs with
   | some libs => libs.contains ev.library
   | none => true) &&
  (match selectedTypes with
   | some tys => (getEventTypes ev).any (fun t => tys.contains t)
   | none => true) &&
  matchesSearch searchTerm searchMode searchFields fuzzyR ev &&
  matchesDate targetDate startDateObj endDateObj ev

/-- The geo step of the loop body: when a user coordinate is available and the
record's library has table coordinates, the `_distance` field is written into
the record (before any distance cut is applied); records without coordinates
are excluded exactly when a maximum distance is set.  Returns the (possibly
updated) record and whether it stays in the filtered output. -/
def geoStep (hav : (Rat × Rat) → (Rat × Rat) → Rat) (round1 : Rat → Rat)
    (userCoords : Option (Rat × Rat)) (maxDistance : Option Rat)
    (ev : WEvent) : WEvent × Bool :=
  match userCoords with
  | none => (ev, true)
  | some uc =>
    match getLibraryCoordinates ev.library ev.location with
    | some ec =>
      let distance := hav uc ec
      let ev' := { ev with distance := some (round1 distance) }
      match maxDistance with
      | some md => (ev', !(md < distance))
      | none => (ev', true)
    | none =>
      match maxDistance with
      | some _ => (ev, false)
      | none => (ev, true)

/-- Comparison key `e.get('_distance', float('inf'))` for the final
distance sort: a missing distance sorts after every present one. -/
def distKeyLe (a b : WEvent) : Bool :=
  match a.distance, b.distance with
  | some x, some y => x ≤ y
  | some _, none => true
  | none, some _ => false
  | none, none => true

/-- Model of `filter_events` (lines 334-510).  `geocode` stands for the
external `geocode_address` service, `hav` for the floating-point
`haversine_distance`, `round1` for `round(., 1)`, `fuzzyR` for the difflib
ratio.  Returns the filtered list (distance-sorted when geocoding was used)
together with the snapshot as it stands after the pass: the source loop
writes `event['_distance']` into the shared record dicts, so the snapshot
list after a call consists of the per-record results of the loop body. -/
def filterEvents (geocode : String → Option (Rat × Rat))
    (hav : (Rat × Rat) → (Rat × Rat) → Rat) (round1 : Rat → Rat)
    (fuzzyR : String → String → Rat) (p : FilterCriteria)
    (eventsData : List WEvent) : List WEvent × List WEvent :=
  let libraryFilters := p.libraryFilters.filter
    (fun lf => !(pyStrip lf.data).isEmpty && lf ≠ "All")
  let selectedLibs : Option (List String) :=
    if !libraryFilters.isEmpty then some libraryFilters else none
  let selectedTypes : Option (List String) :=
    if !p.typeFilters.isEmpty then some p.typeFilters else none
  let searchMode := normalizeMode p.searchMode
  let startDateObj : Option Date :=
    if p.startDate ≠ "" ∨ p.endDate ≠ "" then
      (if p.startDate ≠ "" then parseYMDLenient p.startDate.data else none)
    else none
  let endDateObj : Option Date :=
    if p.startDate ≠ "" ∨ p.endDate ≠ "" then
      (if p.endDate ≠ "" then parseYMDLenient p.endDate.data else none)
    else none
  let targetDate : Option Date :=
    if ¬(p.startDate ≠ "" ∨ p.endDate ≠ "") ∧ p.dateFilter ≠ "" then
      parseYMDLenient p.dateFilter.data
    else none
  let userCoords : Option (Rat × Rat) :=
    if p.userAddress ≠ "" then geocode p.userAddress else none
  let pre := fun ev => passesPre selectedLibs selectedTypes p.searchTerm searchMode
    p.searchFields fuzzyR targetDate startDateObj endDateObj ev
  let processed := (eventsData.filter pre).map
    (geoStep hav round1 userCoords p.maxDistance)
  let filtered := (processed.filter (·.2)).map (·.1)
  let filteredSorted :=
    if userCoords.isSome then filtered.mergeSort distKeyLe else filtered
  let snapshot := eventsData.map
    (fun ev => if pre ev then (geoStep hav round1 userCoords p.maxDistance ev).1 else ev)
  (filteredSorted, snapshot)

/-- The `filter_events` call with every parameter left at its default
(`filter_events()`), as issued for an unconstrained query. -/
def emptyCriteria : FilterCriteria :=
  { libraryFilters := []
    typeFilters := []
    searchTerm := ""
    startDate := ""
    endDate := ""
    dateFilter := ""
    searchFields := []
    searchMode := "any"
    userAddress := ""
    maxDistance := none }

/-! ### Export grouping (`group_events`, `library_web_gui.py` lines 513-539) -/

/-- One date group: the display key, the parsed date of the first record that
created the group, and the per-library buckets in insertion order. -/
structure DateGroup where
  key : String
  dateObj : Option Date
  libs : List (String × List (Nat × WEvent))
deriving DecidableEq, Repr

/-- `date_key`: the re-rendered date when parsable, else the raw text or
`'Date TBD'`. -/
def dateKeyOf (ev : WEvent) : String :=
  match parseEventDate ev.date with
  | some d => String.mk (strftimeFull d)
  | none => if ev.date = "" then "Date TBD" else ev.date

/-- `lib = ev.get('Library') or 'Unknown Library'`. -/
def libOf (ev : WEvent) : String :=
  if ev.library = "" then "Unknown Library" else ev.library

/-- `libs.setdefault(lib, []).append((time_val, ev))` on an insertion-ordered
association list. -/
def insertLib (lib : String) (item : Nat × WEvent) :
    List (String × List (Nat × WEvent)) → List (String × List (Nat × WEvent))
  | [] => [(lib, [item])]
  | (l, items) :: rest =>
    if l = lib then (l, items ++ [item]) :: rest
    else (l, items) :: insertLib lib item rest

/-- Insertion of one record into the insertion-ordered dict of date groups. -/
def insertGroup (k : String) (dObj : Option Date) (lib : String)
    (item : Nat × WEvent) : List DateGroup → List DateGroup
  | [] => [⟨k, dObj, [(lib, [item])]⟩]
  | g :: rest =>
    if g.key = k then { g with libs := insertLib lib item g.libs } :: rest
    else g :: insertGroup k dObj lib item rest

/-- The sort key `(kv[1]['date_obj'] is None, kv[1]['date_obj'] or date.max)`
compared as a Python tuple (groups with no parsed date go last). -/
def dateGroupLe (g1 g2 : DateGroup) : Bool :=
  let b1 := g1.dateObj.isNone
  let b2 := g2.dateObj.isNone
  let d1 := g1.dateObj.getD ⟨9999, 12, 31⟩
  let d2 := g2.dateObj.getD ⟨9999, 12, 31⟩
  (!b1 && b2) || (b1 = b2 && (dateLtB d1 d2 || d1 = d2))

/-- Model of `group_events`: build the insertion-ordered grouping, sort the
date groups by the `(is-None, date-or-max)` key, then sort each library
bucket by its time value (`sorted` is stable, as is `mergeSort`). -/
def groupEvents (events : List WEvent) : List DateGroup :=
  let grouped := events.foldl
    (fun acc ev =>
      insertGroup (dateKeyOf ev) (parseEventDate ev.date) (libOf ev)
        (parseTimeToSortable ev.time, ev) acc)
    []
  let ordered := grouped.mergeSort dateGroupLe
  ordered.map (fun g =>
    { g with libs := g.libs.map (fun lb => (lb.1, lb.2.mergeSort (fun a b => a.1 ≤ b.1))) })

/-! ### Helper definitions used by the theorem statements -/

/-- The lower-cased concatenation of the selected searchable fields that
`matches_search` scans (`combined = " ".join(values_list)`). -/
def combinedFields (searchFields : List String) (ev : WEvent) : List Char :=
  joinSpace ((resolveSearchFields searchFields).map (fun f => lowerL (fieldValue ev f).data))

/-- Alphabetical (lexicographic, code-point) order on strings, the order the
spec's "library name alphabetically" refers to. -/
def alphaLeL : List Char → List Char → Bool
  | [], _ => true
  | _ :: _, [] => false
  | x :: xs, y :: ys => if x = y then alphaLeL xs ys else decide (x < y)

/-- Alphabetical order on strings. -/
def alphaLe (a b : String) : Bool := alphaLeL a.data b.data

/-- Does `parse_time_to_sortable` take its `'all day'` early return on `s`? -/
def allDayInput (s : String) : Bool :=
  hasSub (pyStrip (beforeDash (afterLastAt (pyStrip (lowerL s.data))))) "all day".data

/-- Capitalised month abbreviations as they appear in source data
(`"Dec 10, 2025"`); `%b` matches them case-insensitively. -/
def monthAbbrs : List (List Char) :=
  ["Jan".data, "Feb".data, "Mar".data, "Apr".data, "May".data, "Jun".data,
   "Jul".data, "Aug".data, "Sep".data, "Oct".data, "Nov".data, "Dec".data]

/-- The weekday textual variant of a date, e.g. `"Monday, December 10, 2025"`
(day and year unpadded, as in the source feeds). -/
def weekdayFormOf (y m d : Nat) : String :=
  String.mk (weekdayNames.getD (weekdayOf y m d) [] ++ ", ".data ++
    monthNames.getD (m - 1) [] ++ " ".data ++ natChars d ++ ", ".data ++ natChars y)

/-- The abbreviated textual variant, e.g. `"Dec 10, 2025"`. -/
def abbrFormOf (y m d : Nat) : String :=
  String.mk (monthAbbrs.getD (m - 1) [] ++ " ".data ++ natChars d ++ ", ".data ++ natChars y)

/-- The ISO textual variant, e.g. `"2025-12-10"`. -/
def isoFormOf (y m d : Nat) : String :=
  String.mk (natChars y ++ '-' :: natChars2 m ++ '-' :: natChars2 d)

/-- Two raw adapter records sharing the identity key, differing only in their
description (the overlapping-adapters scenario). -/
def overlapRecord (lib desc : String) : REvent :=
  ⟨lib, "Storytime", "Dec 10, 2025", "10:00 AM", desc⟩

/-- A sample record pair with one identity key for concrete witnesses. -/
def rFirst : REvent := overlapRecord "Skokie" "with songs"

/-- The later duplicate of `rFirst` (same key, different description). -/
def rSecond : REvent := overlapRecord "Skokie" "with rhymes"

/-- A snapshot record whose library has hardcoded coordinates. -/
def skokieEvent : WEvent :=
  ⟨"Storytime", "", "", "Kids", "Skokie", "2025-12-10", "10:00 AM", "N/A", none⟩

/-- A grouping-scenario record: library `"Zeta"`, no parsable time; the date
text is in the abbreviated feed format, which `parse_event_date` does not
recognise, so the raw text itself becomes the group key. -/
def zetaEvent : WEvent :=
  ⟨"Storytime", "", "", "Kids", "Zeta", "Dec 10, 2025", "", "N/A", none⟩

/-- A grouping-scenario record: library `"Alpha"`, 9:00 AM, same date text. -/
def alphaTimed : WEvent :=
  ⟨"Baby Time", "", "", "Kids", "Alpha", "Dec 10, 2025", "9:00 AM", "N/A", none⟩

/-- A grouping-scenario record: library `"Alpha"`, unparsable time text. -/
def alphaUntimed : WEvent :=
  ⟨"Lego Club", "", "", "Teen", "Alpha", "Dec 10, 2025", "", "N/A", none⟩

/-- A sample record for search witnesses. -/
def searchSample : WEvent :=
  ⟨"Baby Storytime", "songs and stories", "Main Branch", "Kids", "Skokie",
   "2025-12-10", "10:00 AM", "N/A", none⟩

/-- A search term that is a single quoted space: `str.strip()` leaves it
unchanged (its outer characters are quotes, not whitespace), yet its only
`finditer` match is the quoted body `' '`, which `token.strip()` empties, so
the token loop appends nothing and `search_tokens` stays empty. -/
def quotedSpaceTerm : String := String.mk [quoteChar, ' ', quoteChar]

/-! ## Theorems -/

theorem dedupGo_sublist : ∀ (l : List REvent) (seen), (dedupGo seen l).Sublist l
  | [], _ => by simp [dedupGo]
  | e :: rest, seen => by
    simp only [dedupGo]
    split
    · exact (dedupGo_sublist rest seen).cons e
    · exact (dedupGo_sublist rest _).cons₂ e

theorem dedupGo_not_seen : ∀ (l : List REvent) (seen) (k),
    k ∈ (dedupGo seen l).map eventKey → k ∉ seen
  | [], seen, k => by simp [dedupGo]
  | e :: rest, seen, k => by
    simp only [dedupGo]
    split
    · exact dedupGo_not_seen rest seen k
    · intro hk
      simp only [List.map_cons, List.mem_cons] at hk
      rcases hk with rfl | hk
      · rename_i h; exact h
      · have h2 := dedupGo_not_seen rest (eventKey e :: seen) k hk
        intro hs
        exact h2 (List.mem_cons_of_mem _ hs)

theorem dedupGo_nodup : ∀ (l : List REvent) (seen),
    ((dedupGo seen l).map eventKey).Nodup
  | [], _ => by simp [dedupGo]
  | e :: rest, seen => by
    simp only [dedupGo]
    split
    · exact dedupGo_nodup rest seen
    · simp only [List.map_cons, List.nodup_cons]
      refine ⟨fun hmem => ?_, dedupGo_nodup rest _⟩
      exact dedupGo_not_seen rest _ _ hmem (List.mem_cons_self _ _)

theorem dedupGo_complete : ∀ (l : List REvent) (seen) (k),
    k ∈ l.map eventKey → k ∉ seen → k ∈ (dedupGo seen l).map eventKey
  | [], _, _ => by simp
  | e :: rest, seen, k => by
    intro hk hns
    simp only [List.map_cons, List.mem_cons] at hk
    simp only [dedupGo]
    split
    · rcases hk with rfl | hk
      · rename_i hin; exact absurd hin hns
      · exact dedupGo_complete rest seen k hk hns
    · rcases hk with rfl | hk
      · simp
      · by_cases hke : k = eventKey e
        · simp [hke]
        · have h2 := dedupGo_complete rest (eventKey e :: seen) k hk
            (by simp [hke, hns])
          simp only [List.map_cons, List.mem_cons]
          exact Or.inr h2

theorem dedupGo_first_occurrence : ∀ (l : List REvent) (seen) (x),
    x ∈ dedupGo seen l →
      eventKey x ∉ seen ∧
        ∃ pre suf, l = pre ++ x :: suf ∧ eventKey x ∉ pre.map eventKey
  | [], _, _ => by simp [dedupGo]
  | e :: rest, seen, x => by
    simp only [dedupGo]
    split
    · intro hx
      obtain ⟨hns, pre, suf, heq, hpre⟩ := dedupGo_first_occurrence rest seen x hx
      refine ⟨hns, e :: pre, suf, by simp [heq], ?_⟩
      simp only [List.map_cons, List.mem_cons, not_or]
      refine ⟨fun hxe => ?_, hpre⟩
      rename_i hin
      exact hns (hxe ▸ hin)
    · intro hx
      rcases List.mem_cons.mp hx with rfl | hx
      · rename_i h
        exact ⟨h, [], rest, rfl, by simp⟩
      · obtain ⟨hns, pre, suf, heq, hpre⟩ :=
          dedupGo_first_occurrence rest (eventKey e :: seen) x hx
        have hne : eventKey x ≠ eventKey e :=
          fun h => hns (h ▸ List.mem_cons_self _ _)
        refine ⟨fun hs => hns (List.mem_cons_of_mem _ hs), e :: pre, suf,
          by simp [heq], ?_⟩
        simp only [List.map_cons, List.mem_cons, not_or]
        exact ⟨hne, hpre⟩

/-- C1.  Deduplication is a single linear pass keeping exactly the first
occurrence of each identity key `(Library, Title, Date, Time)`: the output is
a subsequence of the input (order of first occurrence), lists each distinct
key exactly once, covers exactly the keys of the input, and every surviving
record is the first input record bearing its key — so a later record with an
equal key but different other fields is dropped. -/
theorem dedup_keeps_first_occurrences (l : List REvent) :
    (dedupEvents l).Sublist l ∧
    ((dedupEvents l).map eventKey).Nodup ∧
    (∀ k, k ∈ l.map eventKey ↔ k ∈ (dedupEvents l).map eventKey) ∧
    (∀ x ∈ dedupEvents l,
      ∃ pre suf, l = pre ++ x :: suf ∧ eventKey x ∉ pre.map eventKey) := by
  refine ⟨dedupGo_sublist l [], dedupGo_nodup l [],
    fun k => ⟨fun hk => dedupGo_complete l [] k hk (by simp), fun hk => ?_⟩,
    fun x hx => (dedupGo_first_occurrence l [] x hx).2⟩
  exact ((dedupGo_sublist l []).map eventKey).mem hk

/-- Witness for C1 at a concrete duplicate pair: the first-seen record
survives and is the first occurrence of its key. -/
theorem dedup_keeps_first_occurrences_witness :
    ∃ pre suf, [rFirst, rSecond] = pre ++ rFirst :: suf ∧
      eventKey rFirst ∉ pre.map eventKey :=
  (dedup_keeps_first_occurrences [rFirst, rSecond]).2.2.2 rFirst (by decide)

theorem collectEvents_ok_cons (a : List REvent) (r : List (Except String (List REvent))) :
    collectEvents (Except.ok a :: r) = a ++ collectEvents r := rfl

theorem collectEvents_error_cons (e : String) (r : List (Except String (List REvent))) :
    collectEvents (Except.error e :: r) = collectEvents r := rfl

theorem collectEvents_map_ok (l : List (List REvent)) :
    collectEvents (l.map Except.ok) = l.flatten := by
  induction l with
  | nil => rfl
  | cons a t ih => simp [collectEvents_ok_cons, ih]

/-- C3.  When exactly one adapter fails, the gather-and-merge step of `main`
still completes with the union (in task order) of all other adapters'
record lists, while the failure stays present as a value in the result list
at the failed adapter's position — it is never re-raised. -/
theorem orchestrator_collects_single_failure
    (pre post : List (List REvent)) (e : String) :
    collectEvents (pre.map Except.ok ++ Except.error e :: post.map Except.ok) =
      pre.flatten ++ post.flatten ∧
    (pre.map Except.ok ++ Except.error e :: post.map Except.ok)[pre.length]? =
      some (Except.error e) := by
  constructor
  · induction pre with
    | nil => simp [collectEvents_error_cons, collectEvents_map_ok]
    | cons a t ih => simp_all [collectEvents_ok_cons]
  · rw [List.getElem?_append_right (by simp)]
    simp

/-- C10.  `filter_events` with every criterion empty (no library or type
filters, empty search term, no date bounds or single-date filter, no user
address) returns the snapshot unchanged and in order, and leaves every
snapshot record untouched. -/
theorem filter_events_empty_criteria_identity
    (geocode : String → Option (Rat × Rat))
    (hav : (Rat × Rat) → (Rat × Rat) → Rat) (round1 : Rat → Rat)
    (fuzzyR : String → String → Rat) (events : List WEvent) :
    filterEvents geocode hav round1 fuzzyR emptyCriteria events =
      (events, events) := by
  have hpre : ∀ ev : WEvent,
      passesPre none none "" "any" [] fuzzyR none none none ev = true := by
    intro ev
    rfl
  have hm : normalizeMode "any" = "any" := rfl
  have hgeo : geoStep hav round1 none none = fun ev => (ev, true) :=
    funext fun _ => rfl
  simp only [filterEvents, emptyCriteria, hm]
  simp [hpre, hgeo, List.filter_eq_self, List.filter_map, Function.comp_def]

theorem retryGo_attempts_le {α : Type} (f : Nat → CallOutcome α) (delay : Nat) :
    ∀ (r a : Nat), (retryGo f delay r a).2.2 ≤ r := by
  intro r
  induction r with
  | zero => intro a; simp [retryGo]
  | succ n ih =>
    intro a
    simp only [retryGo]
    split
    · simp
    · split
      · simp
      · have := ih (a + 1)
        simp only
        omega
    · split
      · simp
      · have := ih (a + 1)
        simp only
        omega
    · simp
    · simp

theorem retryGo_all_transient {α : Type} (f : Nat → CallOutcome α)
    (delay : Nat) (e : Nat → String) :
    ∀ (r a : Nat), 1 ≤ r → (∀ i, a ≤ i → i < a + r → f i = .transient (e i)) →
      retryGo f delay r a =
        (some (.error (e (a + r - 1))),
         (List.range' a (r - 1)).map (fun i => delay * 2 ^ i), r) := by
  intro r
  induction r with
  | zero => omega
  | succ n ih =>
    intro a _ hf
    have hfa : f a = .transient (e a) := hf a (Nat.le_refl a) (by omega)
    simp only [retryGo, hfa]
    by_cases hn : n = 0
    · subst hn
      simp
    · have hrec := ih (a + 1) (by omega) (fun i h1 h2 => hf i (by omega) (by omega))
      simp only [if_neg hn, hrec]
      have h1 : a + 1 + n - 1 = a + (n + 1) - 1 := by omega
      have h2 : List.range' a (n + 1 - 1) = a :: List.range' (a + 1) (n - 1) := by
        have : n + 1 - 1 = (n - 1) + 1 := by omega
        rw [this, List.range'_succ]
      rw [h1, h2]
      simp

/-- C6.  The retry executor: makes at most `max_retries` attempts; on runs of
transient failures it waits `delay * 2 ^ attempt` before each next attempt and
surfaces the last error after exhaustion; on a 429 rate-limit with a numeric
`Retry-After` hint of `n` seconds it waits `min n 60`; on any other error
class it fails immediately with no retry and no wait. -/
theorem retry_with_backoff_policy {α : Type} (f : Nat → CallOutcome α)
    (maxRetries delay : Nat) (hmr : 1 ≤ maxRetries) :
    ((retryWithBackoff f maxRetries delay).2.2 ≤ maxRetries) ∧
    (∀ e : Nat → String, (∀ i, i < maxRetries → f i = .transient (e i)) →
      retryWithBackoff f maxRetries delay =
        (some (.error (e (maxRetries - 1))),
         (List.range (maxRetries - 1)).map (fun i => delay * 2 ^ i),
         maxRetries)) ∧
    (∀ s msg, f 0 = .rateLimited (some s) msg → isDigitStr s = true →
      2 ≤ maxRetries →
      (retryWithBackoff f maxRetries delay).2.1.head? =
        some (min (parseNatL s.data) 60)) ∧
    (∀ msg, f 0 = .clientError msg ∨ f 0 = .otherError msg →
      retryWithBackoff f maxRetries delay = (some (.error msg), [], 1)) := by
  refine ⟨retryGo_attempts_le f delay maxRetries 0, fun e hf => ?_, ?_, ?_⟩
  · have := retryGo_all_transient f delay e maxRetries 0 hmr
      (fun i h1 h2 => hf i (by omega))
    simpa [retryWithBackoff, List.range_eq_range'] using this
  · intro s msg hf0 hds h2
    obtain ⟨r, rfl⟩ : ∃ r, maxRetries = r + 2 := ⟨maxRetries - 2, by omega⟩
    simp [retryWithBackoff, retryGo, hf0, rateLimitWait, hds]
  · intro msg hf0
    obtain ⟨r, rfl⟩ : ∃ r, maxRetries = r + 1 := ⟨maxRetries - 1, by omega⟩
    rcases hf0 with h | h <;> simp [retryWithBackoff, retryGo, h]

/-- Witness for C6: three straight transient failures with base delay 2 yield
waits `[2, 4]`, three attempts, and the final surfaced error. -/
theorem retry_with_backoff_policy_witness :
    retryWithBackoff (fun _ => CallOutcome.transient (α := Unit) "conn reset") 3 2 =
      (some (.error "conn reset"), [2, 4], 3) := by
  have h := (retry_with_backoff_policy
    (fun _ => CallOutcome.transient (α := Unit) "conn reset") 3 2 (by omega)).2.1
    (fun _ => "conn reset") (fun i _ => rfl)
  simpa using h

theorem digitChar10_isDigit {n : Nat} (h : n < 10) :
    isDigitChar (digitChar10 n) = true := by
  interval_cases n <;> decide

theorem digitVal_digitChar10 {n : Nat} (h : n < 10) :
    digitVal (digitChar10 n) = n := by
  interval_cases n <;> decide

theorem isDigitChar_ne {c x : Char} (h : isDigitChar c = true)
    (hx : isDigitChar x = false) : c ≠ x := by
  intro rfl'
  rw [rfl'] at h
  rw [h] at hx
  exact Bool.true_eq_false.mp hx

theorem natChars_lt10 {n : Nat} (h : n < 10) : natChars n = [digitChar10 n] := by
  rw [natChars]
  simp [h]

theorem natChars_ge10 {n : Nat} (h : 10 ≤ n) :
    natChars n = natChars (n / 10) ++ [digitChar10 (n % 10)] := by
  rw [natChars]
  simp [Nat.not_lt.mpr h]

theorem natChars_all_digits (n : Nat) : (natChars n).all isDigitChar = true := by
  induction n using natChars.induct with
  | case1 n h => simp [natChars_lt10 h, digitChar10_isDigit h]
  | case2 n h ih =>
    rw [natChars_ge10 (Nat.not_lt.mp h)]
    simp [ih, digitChar10_isDigit (Nat.mod_lt n (by omega))]

theorem natChars_ne_nil (n : Nat) : natChars n ≠ [] := by
  by_cases h : n < 10
  · simp [natChars_lt10 h]
  · simp [natChars_ge10 (Nat.not_lt.mp h)]

theorem parseNatL_append_digit (l : List Char) (c : Char) :
    parseNatL (l ++ [c]) = 10 * parseNatL l + digitVal c := by
  simp [parseNatL, List.foldl_append]

theorem parseNatL_natChars (n : Nat) : parseNatL (natChars n) = n := by
  induction n using natChars.induct with
  | case1 n h =>
    simp [natChars_lt10 h, parseNatL, digitVal_digitChar10 h]
  | case2 n h ih =>
    rw [natChars_ge10 (Nat.not_lt.mp h), parseNatL_append_digit, ih,
      digitVal_digitChar10 (Nat.mod_lt n (by omega))]
    omega

theorem natChars_length_one {n : Nat} (h : n < 10) : (natChars n).length = 1 := by
  simp [natChars_lt10 h]

theorem natChars_length_succ {n : Nat} (h : 10 ≤ n) :
    (natChars n).length = (natChars (n / 10)).length + 1 := by
  simp [natChars_ge10 h]

theorem natChars_length_two {n : Nat} (h1 : 10 ≤ n) (h2 : n < 100) :
    (natChars n).length = 2 := by
  rw [natChars_length_succ h1, natChars_length_one (by omega)]

theorem natChars_length_four {n : Nat} (h1 : 1000 ≤ n) (h2 : n ≤ 9999) :
    (natChars n).length = 4 := by
  rw [natChars_length_succ (by omega), natChars_length_succ (by omega),
    natChars_length_succ (by omega), natChars_length_one (by omega)]

theorem natChars2_all_digits (n : Nat) : (natChars2 n).all isDigitChar = true := by
  by_cases h : n < 10
  · simp [natChars2, h, digitChar10_isDigit h]
    decide
  · simp [natChars2, h, natChars_all_digits]

theorem natChars2_length {n : Nat} (h : n ≤ 31) : (natChars2 n).length = 2 := by
  by_cases h10 : n < 10
  · simp [natChars2, h10]
  · simp only [natChars2, if_neg h10]
    exact natChars_length_two (by omega) (by omega)

theorem parseNatL_natChars2 (n : Nat) : parseNatL (natChars2 n) = n := by
  by_cases h : n < 10
  · simp only [natChars2, if_pos h]
    have h0 : parseNatL ['0'] = 0 := rfl
    calc parseNatL (['0'] ++ [digitChar10 n])
        = 10 * parseNatL ['0'] + digitVal (digitChar10 n) :=
          parseNatL_append_digit _ _
      _ = n := by rw [h0, digitVal_digitChar10 h]; omega
  · simp [natChars2, h, parseNatL_natChars]

theorem all_digits_mem {l : List Char} (h : l.all isDigitChar = true)
    {c : Char} (hc : c ∈ l) : isDigitChar c = true :=
  List.all_eq_true.mp h c hc

theorem splitSp_no_space {a : List Char} (h : ∀ c ∈ a, c ≠ ' ') :
    splitSp a = [a] := by
  induction a with
  | nil => rfl
  | cons c t ih =>
    have hc := h c (List.mem_cons_self _ _)
    simp only [splitSp, if_neg hc]
    rw [ih (fun x hx => h x (List.mem_cons_of_mem _ hx))]

theorem splitSp_append {a rest : List Char} (h : ∀ c ∈ a, c ≠ ' ') :
    splitSp (a ++ ' ' :: rest) = a :: splitSp rest := by
  induction a with
  | nil => simp [splitSp]
  | cons c t ih =>
    have hc := h c (List.mem_cons_self _ _)
    simp only [List.cons_append, splitSp, if_neg hc, List.append_eq]
    rw [ih (fun x hx => h x (List.mem_cons_of_mem _ hx))]

theorem splitDash_no_dash {a : List Char} (h : ∀ c ∈ a, c ≠ '-') :
    splitDash a = [a] := by
  induction a with
  | nil => rfl
  | cons c t ih =>
    have hc := h c (List.mem_cons_self _ _)
    simp only [splitDash, if_neg hc]
    rw [ih (fun x hx => h x (List.mem_cons_of_mem _ hx))]

theorem splitDash_append {a rest : List Char} (h : ∀ c ∈ a, c ≠ '-') :
    splitDash (a ++ '-' :: rest) = a :: splitDash rest := by
  induction a with
  | nil => simp [splitDash]
  | cons c t ih =>
    have hc := h c (List.mem_cons_self _ _)
    simp only [List.cons_append, splitDash, if_neg hc, List.append_eq]
    rw [ih (fun x hx => h x (List.mem_cons_of_mem _ hx))]

theorem replaceSpaceAt_cons {c : Char} (l : List Char) (hc : c ≠ ' ') :
    replaceSpaceAt (c :: l) = c :: replaceSpaceAt l := by
  rw [replaceSpaceAt.eq_def]
  split
  · rename_i heq
    rw [List.cons.injEq] at heq
    exact absurd heq.1 hc
  · rename_i c' rest heq
    rw [List.cons.injEq] at heq
    rw [heq.1, heq.2]
  · rename_i heq
    exact absurd heq (List.cons_ne_nil c l)

theorem replaceSpaceAt_sep (l : List Char) (h : l.head? ≠ some 'a') :
    replaceSpaceAt (' ' :: l) = ' ' :: replaceSpaceAt l := by
  match l with
  | [] => rfl
  | x :: t =>
    have hx : x ≠ 'a' := by
      intro rfl'
      exact h (by rw [rfl']; rfl)
    rw [replaceSpaceAt.eq_def]
    split
    · rename_i heq
      rw [List.cons.injEq, List.cons.injEq] at heq
      exact absurd heq.2.1 hx
    · rename_i c' rest heq
      rw [List.cons.injEq] at heq
      rw [heq.1, heq.2]
    · rename_i heq
      exact absurd heq (List.cons_ne_nil _ _)

theorem replaceSpaceAt_block {a : List Char} (rest : List Char)
    (h : ∀ c ∈ a, c ≠ ' ') :
    replaceSpaceAt (a ++ rest) = a ++ replaceSpaceAt rest := by
  induction a with
  | nil => rfl
  | cons c t ih =>
    have hc := h c (List.mem_cons_self _ _)
    rw [List.cons_append, replaceSpaceAt_cons _ hc,
      ih (fun x hx => h x (List.mem_cons_of_mem _ hx)), List.cons_append]

theorem replaceSpaceAt_id {l : List Char} (h : ∀ c ∈ l, c ≠ ' ') :
    replaceSpaceAt l = l := by
  have h2 := replaceSpaceAt_block (a := l) [] h
  have h0 : replaceSpaceAt [] = ([] : List Char) := rfl
  rw [h0] at h2
  simpa using h2

theorem weekday_name_facts : ∀ i < 7,
    (weekdayNames.getD i []) ≠ [] ∧
    (weekdayNames.getD i []).all isWordChar = true ∧
    (∀ c ∈ weekdayNames.getD i [], c ≠ ' ' ∧ c ≠ ',') ∧
    6 ≤ (weekdayNames.getD i []).length ∧
    weekdayNamesLower.contains (lowerL (weekdayNames.getD i [])) = true := by
  decide

theorem month_name_facts : ∀ i < 12,
    (monthNames.getD i []) ≠ [] ∧
    (monthNames.getD i []).all isWordChar = true ∧
    (∀ c ∈ monthNames.getD i [], c ≠ ' ' ∧ c ≠ ',') ∧
    3 ≤ (monthNames.getD i []).length ∧
    (monthNames.getD i []).head? ≠ some 'a' ∧
    monthFromFull (lowerL (monthNames.getD i [])) = some (i + 1) := by
  decide

theorem month_abbr_facts : ∀ i < 12,
    (monthAbbrs.getD i []).length = 3 ∧
    (monthAbbrs.getD i []).all isWordChar = true ∧
    (∀ c ∈ monthAbbrs.getD i [], c ≠ ' ' ∧ c ≠ ',') ∧
    (monthAbbrs.getD i []).head? ≠ some 'a' ∧
    monthFromAbbr (lowerL (monthAbbrs.getD i [])) = some (i + 1) := by
  decide

theorem weekdayOf_lt (y m d : Nat) : weekdayOf y m d < 7 :=
  Nat.mod_lt _ (by omega)

theorem list_length_two {l : List Char} (h : l.length = 2) :
    ∃ a b, l = [a, b] := by
  match l, h with
  | [a, b], _ => exact ⟨a, b, rfl⟩

theorem list_length_four {l : List Char} (h : l.length = 4) :
    ∃ a b c d, l = [a, b, c, d] := by
  match l, h with
  | [a, b, c, d], _ => exact ⟨a, b, c, d, rfl⟩

theorem digits_head_ne_a {l : List Char} (h : l.all isDigitChar = true) :
    l.head? ≠ some 'a' := by
  cases l with
  | nil => simp
  | cons c t =>
    simp only [List.all_cons, Bool.and_eq_true] at h
    simp only [List.head?_cons, ne_eq, Option.some.injEq]
    intro rfl'
    rw [rfl'] at h
    exact absurd h.1 (by decide)

theorem digits_no_sep {l : List Char} (h : l.all isDigitChar = true) :
    ∀ c ∈ l, c ≠ ' ' ∧ c ≠ ',' ∧ c ≠ '-' := by
  intro c hc
  have hd := all_digits_mem h hc
  exact ⟨isDigitChar_ne hd (by decide), isDigitChar_ne hd (by decide),
    isDigitChar_ne hd (by decide)⟩

theorem head_append_ne_nil {x : List Char} (rest : List Char) (hx : x ≠ []) :
    (x ++ rest).head? = x.head? := by
  cases x with
  | nil => exact absurd rfl hx
  | cons c t => rfl

theorem daysInMonth_le (y m : Nat) : daysInMonth y m ≤ 31 := by
  unfold daysInMonth
  split
  · split <;> omega
  · split <;> omega

theorem replaceSpaceAt_chain3 (mo dd yy : List Char)
    (hmo_ns : ∀ c ∈ mo, c ≠ ' ')
    (hdd : dd.all isDigitChar = true) (hdd_ne : dd ≠ [])
    (hyy : yy.all isDigitChar = true) :
    replaceSpaceAt (mo ++ ' ' :: (dd ++ ' ' :: yy)) =
      mo ++ ' ' :: (dd ++ ' ' :: yy) := by
  have h1 : (dd ++ ' ' :: yy).head? ≠ some 'a' := by
    rw [head_append_ne_nil _ hdd_ne]
    exact digits_head_ne_a hdd
  rw [replaceSpaceAt_block _ hmo_ns, replaceSpaceAt_sep _ h1,
    replaceSpaceAt_block _ (fun c hc => (digits_no_sep hdd c hc).1),
    replaceSpaceAt_sep _ (digits_head_ne_a hyy),
    replaceSpaceAt_id (fun c hc => (digits_no_sep hyy c hc).1)]

theorem removeCommas_no_comma {l : List Char} (h : ∀ c ∈ l, c ≠ ',') :
    removeCommas l = l :=
  List.filter_eq_self.mpr (fun a ha => by simpa using h a ha)

theorem removeCommas_append (l1 l2 : List Char) :
    removeCommas (l1 ++ l2) = removeCommas l1 ++ removeCommas l2 := by
  simp [removeCommas]

theorem removeCommas_cons_comma (l : List Char) :
    removeCommas (',' :: l) = removeCommas l := by
  simp [removeCommas]

theorem removeCommas_cons {c : Char} (l : List Char) (hc : c ≠ ',') :
    removeCommas (c :: l) = c :: removeCommas l := by
  simp [removeCommas, hc]

theorem natChars_length_day {d : Nat} (h : d ≤ 31) :
    1 ≤ (natChars d).length ∧ (natChars d).length ≤ 2 := by
  by_cases h10 : d < 10
  · rw [natChars_length_one h10]; omega
  · rw [natChars_length_two (by omega) (by omega)]; omega

theorem mkValidDate_eq {y m d : Nat} (hy : 1 ≤ y) (hm1 : 1 ≤ m) (hm2 : m ≤ 12)
    (hd1 : 1 ≤ d) (hd2 : d ≤ daysInMonth y m) :
    mkValidDate y m d = some ⟨y, m, d⟩ := by
  rw [mkValidDate, if_pos ⟨hy, hm1, hm2, hd1, hd2⟩]

theorem normalizeDateField_abbrForm {y m d : Nat} (hy1 : 1000 ≤ y)
    (hy2 : y ≤ 9999) (hm1 : 1 ≤ m) (hm2 : m ≤ 12) (hd1 : 1 ≤ d)
    (hd2 : d ≤ daysInMonth y m) :
    normalizeDateField (abbrFormOf y m d) = some ⟨y, m, d⟩ := by
  obtain ⟨hmo_len, hmo_word, hmo_sep, hmo_head, hmo_from⟩ :=
    month_abbr_facts (m - 1) (by omega)
  have hd31 : d ≤ 31 := le_trans hd2 (daysInMonth_le y m)
  have hdd_all := natChars_all_digits d
  have hyy_all := natChars_all_digits y
  have hdd_ne := natChars_ne_nil d
  have hyy_len := natChars_length_four hy1 hy2
  have hdd_len := natChars_length_day hd31
  have hdata : (abbrFormOf y m d).data =
      monthAbbrs.getD (m - 1) [] ++ ' ' :: (natChars d ++ ',' :: ' ' :: natChars y) := by
    unfold abbrFormOf
    simp only [show (" " : String).data = [' '] from rfl,
      show (", " : String).data = [',', ' '] from rfl, List.append_assoc,
      List.cons_append, List.singleton_append, List.nil_append]
  have hne : ¬(abbrFormOf y m d = "" ∨ abbrFormOf y m d = "Not found") := by
    rintro (h | h)
    · have hd' := congrArg String.data h
      rw [hdata] at hd'
      have hl := congrArg List.length hd'
      rw [show (("" : String).data).length = 0 from rfl] at hl
      simp only [List.length_append, List.length_cons] at hl
      omega
    · have hd' := congrArg String.data h
      rw [hdata] at hd'
      have hl := congrArg List.length hd'
      rw [show (("Not found" : String).data).length = 9 from rfl] at hl
      simp only [List.length_append, List.length_cons] at hl
      omega
  have hclean : replaceSpaceAt (removeCommas (abbrFormOf y m d).data) =
      monthAbbrs.getD (m - 1) [] ++ ' ' :: (natChars d ++ ' ' :: natChars y) := by
    rw [hdata, removeCommas_append,
      removeCommas_no_comma (fun c hc => (hmo_sep c hc).2),
      removeCommas_cons _ (by decide), removeCommas_append,
      removeCommas_no_comma (fun c hc => (digits_no_sep hdd_all c hc).2.1),
      removeCommas_cons_comma, removeCommas_cons _ (by decide),
      removeCommas_no_comma (fun c hc => (digits_no_sep hyy_all c hc).2.1)]
    exact replaceSpaceAt_chain3 _ _ _ (fun c hc => (hmo_sep c hc).1) hdd_all
      hdd_ne hyy_all
  have hsplit : splitSp (monthAbbrs.getD (m - 1) [] ++
      ' ' :: (natChars d ++ ' ' :: natChars y)) =
      [monthAbbrs.getD (m - 1) [], natChars d, natChars y] := by
    rw [splitSp_append (fun c hc => (hmo_sep c hc).1),
      splitSp_append (fun c hc => (digits_no_sep hdd_all c hc).1),
      splitSp_no_space (fun c hc => (digits_no_sep hyy_all c hc).1)]
  have hif1 : (if gateFull (monthAbbrs.getD (m - 1) [] ++
      ' ' :: (natChars d ++ ' ' :: natChars y)) then
      strptimeFullFmt (monthAbbrs.getD (m - 1) [] ++
        ' ' :: (natChars d ++ ' ' :: natChars y)) else none) = none := by
    have hgf : ¬(gateFull (monthAbbrs.getD (m - 1) [] ++
        ' ' :: (natChars d ++ ' ' :: natChars y)) = true) := by
      unfold gateFull
      rw [hsplit]
      exact Bool.false_ne_true
    exact if_neg hgf
  have hga : gateAbbr (monthAbbrs.getD (m - 1) [] ++
      ' ' :: (natChars d ++ ' ' :: natChars y)) = true := by
    unfold gateAbbr
    rw [hsplit]
    have hbody : (decide ((monthAbbrs.getD (m - 1) []).length = 3) &&
        (monthAbbrs.getD (m - 1) []).all isWordChar &&
        (natChars d).all isDigitChar && decide (1 ≤ (natChars d).length) &&
        decide ((natChars d).length ≤ 2) && (natChars y).all isDigitChar &&
        decide ((natChars y).length = 4)) = true := by
      rw [hmo_len, hmo_word, hdd_all, hyy_all, hyy_len]
      simp only [Bool.and_eq_true, decide_eq_true_eq, Bool.and_true,
        Bool.true_and, true_and, and_true]
      omega
    exact hbody
  have hm' : m - 1 + 1 = m := by omega
  have hstr : strptimeAbbrFmt (monthAbbrs.getD (m - 1) [] ++
      ' ' :: (natChars d ++ ' ' :: natChars y)) = some ⟨y, m, d⟩ := by
    unfold strptimeAbbrFmt
    rw [hsplit]
    have hbody : (match monthFromAbbr (lowerL (monthAbbrs.getD (m - 1) [])) with
        | some mm => mkValidDate (parseNatL (natChars y)) mm (parseNatL (natChars d))
        | none => none) = some ⟨y, m, d⟩ := by
      rw [hmo_from]
      show mkValidDate (parseNatL (natChars y)) (m - 1 + 1)
        (parseNatL (natChars d)) = some ⟨y, m, d⟩
      rw [hm', parseNatL_natChars, parseNatL_natChars]
      exact mkValidDate_eq (by omega) hm1 hm2 hd1 hd2
    exact hbody
  have hif2 : (if gateAbbr (monthAbbrs.getD (m - 1) [] ++
      ' ' :: (natChars d ++ ' ' :: natChars y)) then
      strptimeAbbrFmt (monthAbbrs.getD (m - 1) [] ++
        ' ' :: (natChars d ++ ' ' :: natChars y)) else none) = some ⟨y, m, d⟩ := by
    rw [hga, hstr]
    rfl
  unfold normalizeDateField
  rw [if_neg hne]
  simp only [hclean]
  rw [hif1, hif2]

theorem isEmpty_false_of_ne_nil {α : Type _} {l : List α} (h : l ≠ []) :
    l.isEmpty = false := by
  cases l with
  | nil => exact absurd rfl h
  | cons c t => rfl

theorem normalizeDateField_weekdayForm {y m d : Nat} (hy1 : 1000 ≤ y)
    (hy2 : y ≤ 9999) (hm1 : 1 ≤ m) (hm2 : m ≤ 12) (hd1 : 1 ≤ d)
    (hd2 : d ≤ daysInMonth y m) :
    normalizeDateField (weekdayFormOf y m d) = some ⟨y, m, d⟩ := by
  obtain ⟨hwd_ne, hwd_word, hwd_sep, hwd_len, hwd_low⟩ :=
    weekday_name_facts (weekdayOf y m d) (weekdayOf_lt y m d)
  obtain ⟨hmo_ne, hmo_word, hmo_sep, hmo_len, hmo_head, hmo_from⟩ :=
    month_name_facts (m - 1) (by omega)
  have hd31 : d ≤ 31 := le_trans hd2 (daysInMonth_le y m)
  have hdd_all := natChars_all_digits d
  have hyy_all := natChars_all_digits y
  have hdd_ne := natChars_ne_nil d
  have hyy_len := natChars_length_four hy1 hy2
  have hdd_len := natChars_length_day hd31
  have hdata : (weekdayFormOf y m d).data =
      weekdayNames.getD (weekdayOf y m d) [] ++ ',' :: ' ' ::
        (monthNames.getD (m - 1) [] ++ ' ' ::
          (natChars d ++ ',' :: ' ' :: natChars y)) := by
    unfold weekdayFormOf
    simp only [show (" " : String).data = [' '] from rfl,
      show (", " : String).data = [',', ' '] from rfl, List.append_assoc,
      List.cons_append, List.singleton_append, List.nil_append]
  have hne : ¬(weekdayFormOf y m d = "" ∨ weekdayFormOf y m d = "Not found") := by
    rintro (h | h)
    · have hd' := congrArg String.data h
      rw [hdata] at hd'
      have hl := congrArg List.length hd'
      rw [show (("" : String).data).length = 0 from rfl] at hl
      simp only [List.length_append, List.length_cons] at hl
      omega
    · have hd' := congrArg String.data h
      rw [hdata] at hd'
      have hl := congrArg List.length hd'
      rw [show (("Not found" : String).data).length = 9 from rfl] at hl
      simp only [List.length_append, List.length_cons] at hl
      omega
  have hclean : replaceSpaceAt (removeCommas (weekdayFormOf y m d).data) =
      weekdayNames.getD (weekdayOf y m d) [] ++ ' ' ::
        (monthNames.getD (m - 1) [] ++ ' ' ::
          (natChars d ++ ' ' :: natChars y)) := by
    rw [hdata, removeCommas_append,
      removeCommas_no_comma (fun c hc => (hwd_sep c hc).2),
      removeCommas_cons_comma, removeCommas_cons _ (by decide),
      removeCommas_append,
      removeCommas_no_comma (fun c hc => (hmo_sep c hc).2),
      removeCommas_cons _ (by decide), removeCommas_append,
      removeCommas_no_comma (fun c hc => (digits_no_sep hdd_all c hc).2.1),
      removeCommas_cons_comma, removeCommas_cons _ (by decide),
      removeCommas_no_comma (fun c hc => (digits_no_sep hyy_all c hc).2.1)]
    rw [replaceSpaceAt_block _ (fun c hc => (hwd_sep c hc).1)]
    have hsep : (monthNames.getD (m - 1) [] ++ ' ' ::
        (natChars d ++ ' ' :: natChars y)).head? ≠ some 'a' := by
      rw [head_append_ne_nil _ hmo_ne]
      exact hmo_head
    rw [replaceSpaceAt_sep _ hsep]
    rw [replaceSpaceAt_chain3 _ _ _ (fun c hc => (hmo_sep c hc).1) hdd_all
      hdd_ne hyy_all]
  have hsplit : splitSp (weekdayNames.getD (weekdayOf y m d) [] ++ ' ' ::
      (monthNames.getD (m - 1) [] ++ ' ' ::
        (natChars d ++ ' ' :: natChars y))) =
      [weekdayNames.getD (weekdayOf y m d) [], monthNames.getD (m - 1) [],
        natChars d, natChars y] := by
    rw [splitSp_append (fun c hc => (hwd_sep c hc).1),
      splitSp_append (fun c hc => (hmo_sep c hc).1),
      splitSp_append (fun c hc => (digits_no_sep hdd_all c hc).1),
      splitSp_no_space (fun c hc => (digits_no_sep hyy_all c hc).1)]
  have hgf : gateFull (weekdayNames.getD (weekdayOf y m d) [] ++ ' ' ::
      (monthNames.getD (m - 1) [] ++ ' ' ::
        (natChars d ++ ' ' :: natChars y))) = true := by
    unfold gateFull
    rw [hsplit]
    have hbody : (!(weekdayNames.getD (weekdayOf y m d) []).isEmpty &&
        (weekdayNames.getD (weekdayOf y m d) []).all isWordChar &&
        !(monthNames.getD (m - 1) []).isEmpty &&
        (monthNames.getD (m - 1) []).all isWordChar &&
        (natChars d).all isDigitChar && decide (1 ≤ (natChars d).length) &&
        decide ((natChars d).length ≤ 2) && (natChars y).all isDigitChar &&
        decide ((natChars y).length = 4)) = true := by
      rw [isEmpty_false_of_ne_nil hwd_ne, isEmpty_false_of_ne_nil hmo_ne,
        hwd_word, hmo_word, hdd_all, hyy_all, hyy_len]
      simp only [Bool.and_eq_true, decide_eq_true_eq, Bool.and_true,
        Bool.true_and, Bool.not_false, true_and, and_true]
      omega
    exact hbody
  have hm' : m - 1 + 1 = m := by omega
  have hstr : strptimeFullFmt (weekdayNames.getD (weekdayOf y m d) [] ++ ' ' ::
      (monthNames.getD (m - 1) [] ++ ' ' ::
        (natChars d ++ ' ' :: natChars y))) = some ⟨y, m, d⟩ := by
    unfold strptimeFullFmt
    rw [hsplit]
    have hbody : (if weekdayNamesLower.contains
        (lowerL (weekdayNames.getD (weekdayOf y m d) [])) = true then
        (match monthFromFull (lowerL (monthNames.getD (m - 1) [])) with
         | some mm =>
           mkValidDate (parseNatL (natChars y)) mm (parseNatL (natChars d))
         | none => none)
        else none) = some ⟨y, m, d⟩ := by
      rw [if_pos hwd_low, hmo_from]
      show mkValidDate (parseNatL (natChars y)) (m - 1 + 1)
        (parseNatL (natChars d)) = some ⟨y, m, d⟩
      rw [hm', parseNatL_natChars, parseNatL_natChars]
      exact mkValidDate_eq (by omega) hm1 hm2 hd1 hd2
    exact hbody
  have hif1 : (if gateFull (weekdayNames.getD (weekdayOf y m d) [] ++ ' ' ::
      (monthNames.getD (m - 1) [] ++ ' ' ::
        (natChars d ++ ' ' :: natChars y))) then
      strptimeFullFmt (weekdayNames.getD (weekdayOf y m d) [] ++ ' ' ::
        (monthNames.getD (m - 1) [] ++ ' ' ::
          (natChars d ++ ' ' :: natChars y))) else none) = some ⟨y, m, d⟩ := by
    rw [hgf, hstr]
    rfl
  unfold normalizeDateField
  rw [if_neg hne]
  simp only [hclean]
  rw [hif1]

theorem normalizeDateField_isoForm {y m d : Nat} (hy1 : 1000 ≤ y)
    (hy2 : y ≤ 9999) (hm1 : 1 ≤ m) (hm2 : m ≤ 12) (hd1 : 1 ≤ d)
    (hd2 : d ≤ daysInMonth y m) :
    normalizeDateField (isoFormOf y m d) = some ⟨y, m, d⟩ := by
  have hd31 : d ≤ 31 := le_trans hd2 (daysInMonth_le y m)
  have hyy_all := natChars_all_digits y
  have hmm_all := natChars2_all_digits m
  have hdd_all := natChars2_all_digits d
  have hyy_len := natChars_length_four hy1 hy2
  have hmm_len := natChars2_length (n := m) (by omega)
  have hdd_len := natChars2_length (n := d) hd31
  have hdata : (isoFormOf y m d).data =
      natChars y ++ '-' :: (natChars2 m ++ '-' :: natChars2 d) := by
    unfold isoFormOf
    simp only [List.append_assoc, List.cons_append, List.nil_append]
  have hnosp : ∀ c ∈ natChars y ++ '-' :: (natChars2 m ++ '-' :: natChars2 d),
      c ≠ ' ' := by
    intro c hc
    simp only [List.mem_append, List.mem_cons] at hc
    rcases hc with h | h | h
    · exact (digits_no_sep hyy_all c h).1
    · rw [h]; decide
    · rcases h with h | h | h
      · exact (digits_no_sep hmm_all c h).1
      · rw [h]; decide
      · exact (digits_no_sep hdd_all c h).1
  have hne : ¬(isoFormOf y m d = "" ∨ isoFormOf y m d = "Not found") := by
    rintro (h | h)
    · have hd' := congrArg String.data h
      rw [hdata] at hd'
      have hl := congrArg List.length hd'
      rw [show (("" : String).data).length = 0 from rfl] at hl
      simp only [List.length_append, List.length_cons] at hl
      omega
    · have hd' := congrArg String.data h
      rw [hdata] at hd'
      have hl := congrArg List.length hd'
      rw [show (("Not found" : String).data).length = 9 from rfl] at hl
      simp only [List.length_append, List.length_cons] at hl
      omega
  have hclean : replaceSpaceAt (removeCommas (isoFormOf y m d).data) =
      natChars y ++ '-' :: (natChars2 m ++ '-' :: natChars2 d) := by
    rw [hdata, removeCommas_append,
      removeCommas_no_comma (fun c hc => (digits_no_sep hyy_all c hc).2.1),
      removeCommas_cons _ (by decide), removeCommas_append,
      removeCommas_no_comma (fun c hc => (digits_no_sep hmm_all c hc).2.1),
      removeCommas_cons _ (by decide),
      removeCommas_no_comma (fun c hc => (digits_no_sep hdd_all c hc).2.1)]
    exact replaceSpaceAt_id hnosp
  have hsplit : splitSp (natChars y ++ '-' :: (natChars2 m ++ '-' :: natChars2 d)) =
      [natChars y ++ '-' :: (natChars2 m ++ '-' :: natChars2 d)] :=
    splitSp_no_space hnosp
  have hsplitd :
      splitDash (natChars y ++ '-' :: (natChars2 m ++ '-' :: natChars2 d)) =
      [natChars y, natChars2 m, natChars2 d] := by
    rw [splitDash_append (fun c hc => (digits_no_sep hyy_all c hc).2.2),
      splitDash_append (fun c hc => (digits_no_sep hmm_all c hc).2.2),
      splitDash_no_dash (fun c hc => (digits_no_sep hdd_all c hc).2.2)]
  obtain ⟨a, b, c', d', hy4⟩ := list_length_four hyy_len
  obtain ⟨e, f, hm2'⟩ := list_length_two hmm_len
  obtain ⟨g, h, hd2'⟩ := list_length_two hdd_len
  have hif1 : (if gateFull (natChars y ++ '-' ::
      (natChars2 m ++ '-' :: natChars2 d)) then
      strptimeFullFmt (natChars y ++ '-' :: (natChars2 m ++ '-' :: natChars2 d))
      else none) = none := by
    have hgf : ¬(gateFull (natChars y ++ '-' ::
        (natChars2 m ++ '-' :: natChars2 d)) = true) := by
      unfold gateFull
      rw [hsplit]
      exact Bool.false_ne_true
    exact if_neg hgf
  have hif2 : (if gateAbbr (natChars y ++ '-' ::
      (natChars2 m ++ '-' :: natChars2 d)) then
      strptimeAbbrFmt (natChars y ++ '-' :: (natChars2 m ++ '-' :: natChars2 d))
      else none) = none := by
    have hga : ¬(gateAbbr (natChars y ++ '-' ::
        (natChars2 m ++ '-' :: natChars2 d)) = true) := by
      unfold gateAbbr
      rw [hsplit]
      exact Bool.false_ne_true
    exact if_neg hga
  have hgi : gateIso (natChars y ++ '-' :: (natChars2 m ++ '-' :: natChars2 d)) =
      true := by
    rw [hy4] at hyy_all ⊢
    rw [hm2'] at hmm_all ⊢
    rw [hd2'] at hdd_all ⊢
    unfold gateIso
    simp only [List.cons_append, List.nil_append]
    simp [hyy_all, hmm_all, hdd_all]
  have hstr : strptimeIsoFmt (natChars y ++ '-' ::
      (natChars2 m ++ '-' :: natChars2 d)) = some ⟨y, m, d⟩ := by
    unfold strptimeIsoFmt
    rw [hsplitd]
    show mkValidDate (parseNatL (natChars y)) (parseNatL (natChars2 m))
      (parseNatL (natChars2 d)) = some ⟨y, m, d⟩
    rw [parseNatL_natChars, parseNatL_natChars2, parseNatL_natChars2]
    exact mkValidDate_eq (by omega) hm1 hm2 hd1 hd2
  unfold normalizeDateField
  rw [if_neg hne]
  simp only [hclean]
  rw [hif1, hif2, if_pos hgi, hstr]

/-- Counterexample to C4 as stated: the numeric variant `"12/10/2025"` is
matched by none of the three format/regex pairs and normalizes to the
`datetime.max` Unknown sentinel, while the ISO variant of the same date
normalizes to December 10, 2025 — so not all four variants agree, and one of
them yields Unknown. -/
theorem normalize_date_numeric_counterexample :
    normalizeDateField "12/10/2025" = none ∧
    normalizeDateField "2025-12-10" = some ⟨2025, 12, 10⟩ ∧
    normalizeDateField "12/10/2025" ≠ normalizeDateField "2025-12-10" := by
  refine ⟨by decide, by decide, by decide⟩

/-- C4 (amended).  For every calendar date with a four-digit year, the
weekday variant (`"Wednesday, December 10, 2025"`), the abbreviated variant
(`"Dec 10, 2025"`) and the ISO variant (`"2025-12-10"`) all normalize to that
same calendar date (never the Unknown sentinel); the numeric variant
(`"12/10/2025"`) is unsupported and normalizes to Unknown. -/
theorem normalize_date_supported_variants_agree {y m d : Nat}
    (hy1 : 1000 ≤ y) (hy2 : y ≤ 9999) (hm1 : 1 ≤ m) (hm2 : m ≤ 12)
    (hd1 : 1 ≤ d) (hd2 : d ≤ daysInMonth y m) :
    normalizeDateField (weekdayFormOf y m d) = some ⟨y, m, d⟩ ∧
    normalizeDateField (abbrFormOf y m d) = some ⟨y, m, d⟩ ∧
    normalizeDateField (isoFormOf y m d) = some ⟨y, m, d⟩ :=
  ⟨normalizeDateField_weekdayForm hy1 hy2 hm1 hm2 hd1 hd2,
   normalizeDateField_abbrForm hy1 hy2 hm1 hm2 hd1 hd2,
   normalizeDateField_isoForm hy1 hy2 hm1 hm2 hd1 hd2⟩

/-- Witness for the amended C4 at December 10, 2025: all three supported
variants normalize to the same date. -/
theorem normalize_date_supported_variants_agree_witness :
    normalizeDateField (weekdayFormOf 2025 12 10) = some ⟨2025, 12, 10⟩ ∧
    normalizeDateField (abbrFormOf 2025 12 10) = some ⟨2025, 12, 10⟩ ∧
    normalizeDateField (isoFormOf 2025 12 10) = some ⟨2025, 12, 10⟩ :=
  normalize_date_supported_variants_agree (by decide) (by decide) (by decide)
    (by decide) (by decide) (by decide)

/-- Counterexample to C5 as stated: `"Storytime Special"` is parsed by no time
format, yet its sortable key (midnight, `datetime.min.time()`) sorts strictly
BEFORE the parsable `"10:00 AM"` — not strictly after every known time. -/
theorem unknown_time_sorts_before_counterexample :
    tryTimeFormats (timeFormatInput "Storytime Special") = none ∧
    tryTimeFormats (timeFormatInput "10:00 AM") = some 600 ∧
    parseTimeToSortable "Storytime Special" < parseTimeToSortable "10:00 AM" := by
  refine ⟨by decide, by decide, by decide⟩

/-- C5 (amended).  The sortable key maps every unparsable time string and
every "All Day" string to the minimal key (midnight, `datetime.min.time()`),
so both sort before-or-equal to — never strictly after — the key of every
clock time. -/
theorem time_key_unknown_and_allday_minimal (s u t : String)
    (hs : tryTimeFormats (timeFormatInput s) = none)
    (hu : allDayInput u = true) :
    parseTimeToSortable s = 0 ∧ parseTimeToSortable u = 0 ∧
    parseTimeToSortable s ≤ parseTimeToSortable t ∧
    parseTimeToSortable u ≤ parseTimeToSortable t := by
  have h1 : parseTimeToSortable s = 0 := by
    unfold parseTimeToSortable
    unfold timeFormatInput at hs
    simp only [hs]
    split <;> rfl
  have h2 : parseTimeToSortable u = 0 := by
    unfold parseTimeToSortable
    unfold allDayInput at hu
    rw [if_pos hu]
  exact ⟨h1, h2, by omega, by omega⟩

/-- Witness for the amended C5: the unparsable `"garbage"` and `"All Day"`
both get key 0, no later than the key of `"10:00 AM"`. -/
theorem time_key_unknown_and_allday_minimal_witness :
    parseTimeToSortable "garbage" = 0 ∧ parseTimeToSortable "All Day" = 0 ∧
    parseTimeToSortable "garbage" ≤ parseTimeToSortable "10:00 AM" ∧
    parseTimeToSortable "All Day" ≤ parseTimeToSortable "10:00 AM" :=
  time_key_unknown_and_allday_minimal "garbage" "All Day" "10:00 AM"
    (by decide) (by decide)

/-- C2.  Two adapters contribute records with the identical
(title, date, time) triple `("Storytime", "Dec 10, 2025", "10:00 AM")` from
the same library, differing only in description: after deduplication followed
by the normalization pass exactly the first-seen record survives, and its
normalized calendar date is 2025-12-10. -/
theorem overlapping_adapters_one_survivor (lib d1 d2 : String)
    (_hne : d1 ≠ d2) :
    dedupNormalize [overlapRecord lib d1, overlapRecord lib d2] =
      [normEvent (overlapRecord lib d1)] ∧
    (normEvent (overlapRecord lib d1)).datetimeObj = some ⟨2025, 12, 10⟩ := by
  constructor
  · have hkey : eventKey (overlapRecord lib d2) ∈ [eventKey (overlapRecord lib d1)] := by
      simp [eventKey, overlapRecord]
    unfold dedupNormalize dedupEvents
    simp only [dedupGo, List.not_mem_nil, if_neg, if_pos hkey, if_false]
    simp [dedupGo]
  · show normalizeDateField "Dec 10, 2025" = some ⟨2025, 12, 10⟩
    decide

/-- Witness for C2 at concrete descriptions. -/
theorem overlapping_adapters_one_survivor_witness :
    dedupNormalize [overlapRecord "Skokie" "with songs",
      overlapRecord "Skokie" "with rhymes"] =
      [normEvent (overlapRecord "Skokie" "with songs")] ∧
    (normEvent (overlapRecord "Skokie" "with songs")).datetimeObj =
      some ⟨2025, 12, 10⟩ :=
  overlapping_adapters_one_survivor "Skokie" "with songs" "with rhymes"
    (by decide)

/-- Counterexample to C9 as stated: with an active geo-distance criterion
(a user address that geocodes, here to a concrete coordinate, with the
distance function standing in for the floating-point haversine), the
`filter_events` pass writes a `_distance` field into the snapshot record for
the Skokie library — the snapshot record is not field-for-field unchanged. -/
theorem geo_filter_mutates_snapshot_counterexample :
    (filterEvents (fun _ => some (42, -87)) (fun _ _ => 0) (fun q => q)
        (fun _ _ => 0)
        { emptyCriteria with userAddress := "60077" } [skokieEvent]).2 =
      [{ skokieEvent with distance := some 0 }] ∧
    (filterEvents (fun _ => some (42, -87)) (fun _ _ => 0) (fun q => q)
        (fun _ _ => 0)
        { emptyCriteria with userAddress := "60077" } [skokieEvent]).2 ≠
      [skokieEvent] := by
  refine ⟨by decide, by decide⟩

/-- C9 (amended).  `filter_events` leaves every snapshot record unchanged
whenever no geo-distance criterion is active (empty user address, or an
address the geocoder cannot resolve); with an active, resolvable address it
writes a `_distance` field into each record that passes the other filters and
whose library has coordinates, mutating the snapshot in place. -/
theorem filter_no_geo_preserves_snapshot
    (geocode : String → Option (Rat × Rat))
    (hav : (Rat × Rat) → (Rat × Rat) → Rat) (round1 : Rat → Rat)
    (fuzzyR : String → String → Rat) (p : FilterCriteria)
    (events : List WEvent)
    (h : (if p.userAddress ≠ "" then geocode p.userAddress else none) = none) :
    (filterEvents geocode hav round1 fuzzyR p events).2 = events := by
  unfold filterEvents
  simp only [h, geoStep]
  simp [List.map_id'']

/-- Witness for the amended C9: an empty user address leaves a concrete
snapshot untouched. -/
theorem filter_no_geo_preserves_snapshot_witness :
    (filterEvents (fun _ => some (42, -87)) (fun _ _ => 0) (fun q => q)
        (fun _ _ => 0) emptyCriteria [skokieEvent]).2 = [skokieEvent] :=
  filter_no_geo_preserves_snapshot _ _ _ _ emptyCriteria [skokieEvent]
    (by decide)

theorem groupEvents_concrete_eval :
    groupEvents [zetaEvent, alphaUntimed, alphaTimed] =
      [{ key := "Dec 10, 2025",
         dateObj := none,
         libs := [("Zeta", [(0, zetaEvent)]),
           ("Alpha", [(0, alphaUntimed), (540, alphaTimed)])] }] := by
  have e1 : List.mergeSort
      [({ key := "Dec 10, 2025",
          dateObj := none,
          libs := [("Zeta", [(0, zetaEvent)]),
            ("Alpha", [(0, alphaUntimed), (540, alphaTimed)])] } : DateGroup)]
      dateGroupLe =
      [{ key := "Dec 10, 2025",
         dateObj := none,
         libs := [("Zeta", [(0, zetaEvent)]),
           ("Alpha", [(0, alphaUntimed), (540, alphaTimed)])] }] :=
    List.mergeSort_singleton _
  have e2 : List.mergeSort [((0 : Nat), alphaUntimed), (540, alphaTimed)]
      (fun a b => a.1 ≤ b.1) = [(0, alphaUntimed), (540, alphaTimed)] :=
    List.mergeSort_of_sorted (by decide)
  have e3 : List.mergeSort [((0 : Nat), zetaEvent)]
      (fun a b => a.1 ≤ b.1) = [(0, zetaEvent)] :=
    List.mergeSort_singleton _
  unfold groupEvents
  change (List.mergeSort
    [({ key := "Dec 10, 2025",
        dateObj := none,
        libs := [("Zeta", [(0, zetaEvent)]),
          ("Alpha", [(0, alphaUntimed), (540, alphaTimed)])] } : DateGroup)]
    dateGroupLe).map
      (fun g => DateGroup.mk g.key g.dateObj (g.libs.map
        (fun lb => (lb.1, lb.2.mergeSort (fun a b => a.1 ≤ b.1))))) = _
  rw [e1]
  simp only [List.map_cons, List.map_nil]
  rw [e2, e3]

/-- Counterexample to C8 as stated: on a concrete snapshot the grouping keeps
the libraries of one date in first-appearance order `["Zeta", "Alpha"]`, not
alphabetically (`"Alpha" < "Zeta"`), and inside the `"Alpha"` bucket the
record with unparsable time text carries the minimal key 0 and comes first,
not last. -/
theorem group_events_counterexample :
    ((groupEvents [zetaEvent, alphaUntimed, alphaTimed]).map
      (fun g => g.libs.map (·.1))) = [["Zeta", "Alpha"]] ∧
    alphaLe "Alpha" "Zeta" = true ∧ alphaLe "Zeta" "Alpha" = false ∧
    ((groupEvents [zetaEvent, alphaUntimed, alphaTimed]).map
      (fun g => g.libs.map (fun lb => lb.2.map (·.1)))) = [[[0], [0, 540]]] ∧
    tryTimeFormats (timeFormatInput alphaUntimed.time) = none := by
  rw [groupEvents_concrete_eval]
  refine ⟨by decide, by decide, by decide, by decide, by decide⟩

theorem dateGroupLe_total : ∀ g1 g2 : DateGroup,
    (dateGroupLe g1 g2 || dateGroupLe g2 g1) = true := by
  intro g1 g2
  unfold dateGroupLe
  cases hoa : g1.dateObj with
  | none =>
    cases hob : g2.dateObj with
    | none => simp [dateLtB]
    | some v => simp
  | some va =>
    cases hob : g2.dateObj with
    | none => simp
    | some vb =>
      obtain ⟨y1, m1, d1⟩ := va
      obtain ⟨y2, m2, d2⟩ := vb
      simp [dateLtB, Date.mk.injEq, decide_eq_true_eq]
      omega

theorem dateGroupLe_trans : ∀ g1 g2 g3 : DateGroup,
    dateGroupLe g1 g2 = true → dateGroupLe g2 g3 = true →
      dateGroupLe g1 g3 = true := by
  intro g1 g2 g3 hab hbc
  unfold dateGroupLe at hab hbc ⊢
  cases hoa : g1.dateObj with
  | none =>
    cases hob : g2.dateObj with
    | none =>
      cases hoc : g3.dateObj with
      | none => simp_all [dateLtB]
      | some vc => simp_all
    | some vb => simp_all
  | some va =>
    cases hob : g2.dateObj with
    | none =>
      cases hoc : g3.dateObj with
      | none => simp_all
      | some vc => simp_all
    | some vb =>
      cases hoc : g3.dateObj with
      | none => simp_all
      | some vc =>
        obtain ⟨y1, m1, d1⟩ := va
        obtain ⟨y2, m2, d2⟩ := vb
        obtain ⟨y3, m3, d3⟩ := vc
        simp_all [dateLtB, Date.mk.injEq, decide_eq_true_eq]
        omega

/-- C8 (amended).  `group_events` orders the date groups ascending by the
`(has-no-date, date-or-max)` key — groups with an unparsable date last — and
sorts each library bucket by ascending normalized time key; libraries within
a date stay in first-appearance order (not alphabetical; the PDF renderer
sorts the names separately), unparsable times carry the minimal key
(midnight) and therefore come first, and only the PDF report consumes this
grouping (the ICS exporter iterates the record list directly). -/
theorem group_events_ordering (events : List WEvent) :
    ((groupEvents events).Pairwise (fun g1 g2 => dateGroupLe g1 g2 = true)) ∧
    (∀ g ∈ groupEvents events, ∀ lb ∈ g.libs,
      (lb.2.map Prod.fst).Pairwise (fun a b => a ≤ b)) := by
  unfold groupEvents
  constructor
  · apply List.Pairwise.map
      (R := fun g1 g2 : DateGroup => dateGroupLe g1 g2 = true)
    · intro a b hab
      exact hab
    · exact List.sorted_mergeSort dateGroupLe_trans dateGroupLe_total _
  · intro g hg lb hlb
    simp only [List.mem_map] at hg
    obtain ⟨g', _, rfl⟩ := hg
    simp only [List.mem_map] at hlb
    obtain ⟨lb', _, rfl⟩ := hlb
    apply List.Pairwise.map (R := fun a b : Nat × WEvent => (a.1 ≤ b.1))
    · intro a b hab
      exact hab
    · have hsorted : (lb'.2.mergeSort (fun a b => a.1 ≤ b.1)).Pairwise
          (fun a b : Nat × WEvent => decide (a.1 ≤ b.1) = true) :=
        List.sorted_mergeSort
          (fun a b c hab hbc => by
            simp only [decide_eq_true_eq] at *
            omega)
          (fun a b => by
            simp only [Bool.or_eq_true, decide_eq_true_eq]
            omega)
          lb'.2
      exact hsorted.imp (fun h => by simpa using h)

/-- Witness for the amended C8 on a concrete snapshot, exercising the
membership hypotheses of the bucket-ordering conjunct. -/
theorem group_events_ordering_witness :
    (([((0 : Nat), alphaUntimed), (540, alphaTimed)]).map Prod.fst).Pairwise
      (fun a b => a ≤ b) := by
  have hmem : ({ key := "Dec 10, 2025",
                 dateObj := none,
                 libs := [("Zeta", [(0, zetaEvent)]),
                   ("Alpha", [(0, alphaUntimed), (540, alphaTimed)])] } :
      DateGroup) ∈ groupEvents [zetaEvent, alphaUntimed, alphaTimed] := by
    rw [groupEvents_concrete_eval]
    exact List.mem_singleton.mpr rfl
  exact (group_events_ordering [zetaEvent, alphaUntimed, alphaTimed]).2 _ hmem
    ("Alpha", [(0, alphaUntimed), (540, alphaTimed)]) (by decide)

theorem leadsWith_iff : ∀ (p h : List Char),
    leadsWith p h = true ↔ ∃ r, h = p ++ r
  | [], h => by simp [leadsWith]
  | p :: ps, [] => by simp [leadsWith]
  | p :: ps, c :: cs => by
    simp only [leadsWith, Bool.and_eq_true, decide_eq_true_eq]
    rw [leadsWith_iff ps cs]
    constructor
    · rintro ⟨rfl, r, rfl⟩
      exact ⟨r, rfl⟩
    · rintro ⟨r, hr⟩
      rw [List.cons_append, List.cons.injEq] at hr
      exact ⟨hr.1.symm, r, hr.2⟩

theorem hasSub_iff : ∀ (hay pat : List Char),
    hasSub hay pat = true ↔ ∃ l r, hay = l ++ pat ++ r
  | [], pat => by
    cases pat with
    | nil =>
      constructor
      · intro _
        exact ⟨[], [], rfl⟩
      · intro _
        rfl
    | cons p ps =>
      constructor
      · intro h
        simp [hasSub, leadsWith] at h
      · rintro ⟨l, r, hr⟩
        rw [List.append_assoc] at hr
        have := List.append_eq_nil.mp hr.symm
        have h2 := List.append_eq_nil.mp this.2
        exact absurd h2.1 (List.cons_ne_nil p ps)
  | c :: t, pat => by
    rw [hasSub]
    simp only [Bool.or_eq_true]
    rw [leadsWith_iff, hasSub_iff t pat]
    constructor
    · rintro (⟨r, hr⟩ | ⟨l, r, hr⟩)
      · exact ⟨[], r, by simpa using hr⟩
      · exact ⟨c :: l, r, by simp [hr]⟩
    · rintro ⟨l, r, hr⟩
      cases l with
      | nil => exact Or.inl ⟨r, by simpa using hr⟩
      | cons x xs =>
        rw [List.cons_append, List.cons_append, List.cons.injEq] at hr
        exact Or.inr ⟨xs, r, by rw [hr.2, List.append_assoc]⟩

theorem hasSub_trans {a b c : List Char} (h1 : hasSub b a = true)
    (h2 : hasSub c b = true) : hasSub c a = true := by
  obtain ⟨l1, r1, rfl⟩ := (hasSub_iff b a).mp h1
  obtain ⟨l2, r2, rfl⟩ := (hasSub_iff c _).mp h2
  exact (hasSub_iff _ _).mpr ⟨l2 ++ l1, r1 ++ r2, by simp [List.append_assoc]⟩

theorem hasSub_of_tail {c : Char} {rest pat : List Char}
    (h : hasSub rest pat = true) : hasSub (c :: rest) pat = true := by
  rw [hasSub]
  simp [h]

theorem hasSub_of_suffix {s l pat : List Char} (hs : s <:+ l)
    (h : hasSub s pat = true) : hasSub l pat = true := by
  obtain ⟨pre, rfl⟩ := hs
  obtain ⟨a, b, rfl⟩ := (hasSub_iff s pat).mp h
  exact (hasSub_iff _ _).mpr ⟨pre ++ a, b, by simp [List.append_assoc]⟩

theorem hasSub_leading {l pat r : List Char} (h : pat ++ r = l) :
    hasSub l pat = true :=
  (hasSub_iff l pat).mpr ⟨[], r, by simp [h.symm]⟩

theorem pyStrip_hasSub (l : List Char) : hasSub l (pyStrip l) = true := by
  unfold pyStrip
  obtain ⟨pre, hpre⟩ := List.dropWhile_suffix
    (l := (l.dropWhile isWsChar).reverse) isWsChar
  have h2 := congrArg List.reverse hpre
  simp only [List.reverse_append, List.reverse_reverse] at h2
  refine (hasSub_iff _ _).mpr ⟨l.takeWhile isWsChar, pre.reverse, ?_⟩
  rw [List.append_assoc, h2, List.takeWhile_append_dropWhile]

theorem mem_pushToken {tok raw : List Char} {rest : List (List Char)}
    (h : tok ∈ pushToken raw rest) : tok = pyStrip raw ∨ tok ∈ rest := by
  unfold pushToken at h
  by_cases he : (pyStrip raw).isEmpty = true
  · rw [if_pos he] at h
    exact Or.inr h
  · rw [if_neg he] at h
    rcases List.mem_cons.mp h with rfl | h2
    · exact Or.inl rfl
    · exact Or.inr h2

theorem tokenizeSearch_hasSub :
    ∀ (l : List Char), ∀ t ∈ tokenizeSearch l, hasSub l t = true := by
  intro l
  induction l using tokenizeSearch.induct with
  | case1 =>
    intro t ht
    simp [tokenizeSearch] at ht
  | case2 head t hws ih =>
    intro tok ht
    rw [tokenizeSearch, if_pos hws] at ht
    exact hasSub_of_tail (ih tok ht)
  | case3 t hcond hq ih =>
    intro tok ht
    rw [tokenizeSearch, if_neg hq, if_pos rfl, if_pos hcond] at ht
    rcases mem_pushToken ht with rfl | ht
    · obtain ⟨s, hs⟩ :=
        List.takeWhile_prefix (l := t) (fun x => decide (x ≠ quoteChar))
      exact hasSub_of_tail
        (hasSub_trans (pyStrip_hasSub _) (hasSub_leading hs))
    · exact hasSub_of_tail
        (hasSub_of_suffix (List.drop_suffix _ _) (ih tok ht))
  | case4 t hcond hq ih =>
    intro tok ht
    rw [tokenizeSearch, if_neg hq, if_pos rfl, if_neg hcond] at ht
    rcases mem_pushToken ht with rfl | ht
    · exact hasSub_trans (pyStrip_hasSub _) (hasSub_leading
        (by rw [List.cons_append, List.takeWhile_append_dropWhile]))
    · exact hasSub_of_tail
        (hasSub_of_suffix (List.dropWhile_suffix _) (ih tok ht))
  | case5 head t hws hqn ih =>
    intro tok ht
    rw [tokenizeSearch, if_neg hws, if_neg hqn] at ht
    rcases mem_pushToken ht with rfl | ht
    · exact hasSub_trans (pyStrip_hasSub _) (hasSub_leading
        (by rw [List.cons_append, List.takeWhile_append_dropWhile]))
    · exact hasSub_of_tail
        (hasSub_of_suffix (List.dropWhile_suffix _) (ih tok ht))

/-- Counterexample to C7 as stated: the search term `quotedSpaceTerm` (a
quoted space) is non-empty, and still non-empty after lower-casing and
stripping, yet its single `finditer` match strips to the empty token and is
dropped, so `search_tokens` is empty; `matches_search` then returns `True`
(the `if not search_tokens: return True` branch) in `any` mode for a record
in whose searchable fields no token of the term occurs — there are no tokens
at all — contradicting "matches iff at least one term appears". -/
theorem search_any_no_token_counterexample :
    quotedSpaceTerm ≠ "" ∧
    pyStrip (lowerL quotedSpaceTerm.data) ≠ [] ∧
    tokenizeSearch (pyStrip (lowerL quotedSpaceTerm.data)) = [] ∧
    matchesSearch quotedSpaceTerm "any" [] (fun _ _ => 0) searchSample
      = true := by
  have hps : pyStrip (lowerL quotedSpaceTerm.data)
      = [quoteChar, ' ', quoteChar] := by decide
  have htok : tokenizeSearch (pyStrip (lowerL quotedSpaceTerm.data)) = [] := by
    rw [hps]
    simp [tokenizeSearch, pushToken, pyStrip, isWsChar, quoteChar,
      List.takeWhile, List.dropWhile]
  refine ⟨by decide, by decide, htok, ?_⟩
  have hraw : (pyStrip (lowerL quotedSpaceTerm.data)).isEmpty = false := by
    decide
  have hcs : hasSub (joinSpace ((resolveSearchFields []).map
      (fun f => lowerL (fieldValue searchSample f).data)))
      (pyStrip (lowerL quotedSpaceTerm.data)) = false := by decide
  unfold matchesSearch
  rw [if_neg (by decide : ¬quotedSpaceTerm = "")]
  simp only [hraw, Bool.false_eq_true, if_false]
  rw [if_neg (by decide : ¬("any" : String) = "exact"),
    if_neg (by decide : ¬("any" : String) = "fuzzy")]
  rw [hcs]
  simp only [Bool.false_eq_true, if_false]
  rw [htok]
  simp

/-- C7 (amended).  For every record and search term that is non-empty after
lower-casing and stripping: under `search_mode=all` the record matches if and
only if every surviving token of the term (each `finditer` match stripped,
empty strips dropped) occurs in the lower-cased concatenation of the selected
searchable fields — vacuously true when no token survives; under
`search_mode=any`, when at least one token survives the record matches if and
only if at least one token occurs, and when no token survives every record
matches.  (The early `raw in combined` short-cut of the source changes
nothing: every token is a substring of `raw`.) -/
theorem search_mode_all_any_semantics (searchTerm : String)
    (searchFields : List String) (fuzzyR : String → String → Rat) (ev : WEvent)
    (h : pyStrip (lowerL searchTerm.data) ≠ []) :
    (matchesSearch searchTerm "all" searchFields fuzzyR ev = true ↔
      ∀ tok ∈ tokenizeSearch (pyStrip (lowerL searchTerm.data)),
        hasSub (combinedFields searchFields ev) tok = true) ∧
    (tokenizeSearch (pyStrip (lowerL searchTerm.data)) ≠ [] →
      (matchesSearch searchTerm "any" searchFields fuzzyR ev = true ↔
        ∃ tok ∈ tokenizeSearch (pyStrip (lowerL searchTerm.data)),
          hasSub (combinedFields searchFields ev) tok = true)) ∧
    (tokenizeSearch (pyStrip (lowerL searchTerm.data)) = [] →
      matchesSearch searchTerm "any" searchFields fuzzyR ev = true) := by
  have hterm : ¬(searchTerm = "") := by
    intro heq
    apply h
    rw [heq]
    rfl
  have htok_sub := tokenizeSearch_hasSub (pyStrip (lowerL searchTerm.data))
  unfold combinedFields
  refine ⟨?_, ?_, ?_⟩
  · unfold matchesSearch
    rw [if_neg hterm]
    simp only [isEmpty_false_of_ne_nil h, Bool.false_eq_true, if_false]
    rw [if_neg (by decide : ¬("all" : String) = "exact"),
      if_neg (by decide : ¬("all" : String) = "fuzzy")]
    by_cases hcs : hasSub (joinSpace ((resolveSearchFields searchFields).map
        (fun f => lowerL (fieldValue ev f).data)))
        (pyStrip (lowerL searchTerm.data)) = true
    · rw [if_pos hcs]
      constructor
      · intro _ tok htok
        exact hasSub_trans (htok_sub tok htok) hcs
      · intro _
        rfl
    · rw [if_neg hcs]
      by_cases htk : tokenizeSearch (pyStrip (lowerL searchTerm.data)) = []
      · rw [htk]
        simp
      · simp only [isEmpty_false_of_ne_nil htk, Bool.false_eq_true, if_false]
        rw [if_pos trivial]
        exact List.all_eq_true
  · intro htokne
    unfold matchesSearch
    rw [if_neg hterm]
    simp only [isEmpty_false_of_ne_nil h, isEmpty_false_of_ne_nil htokne,
      Bool.false_eq_true, if_false]
    rw [if_neg (by decide : ¬("any" : String) = "exact"),
      if_neg (by decide : ¬("any" : String) = "fuzzy")]
    by_cases hcs : hasSub (joinSpace ((resolveSearchFields searchFields).map
        (fun f => lowerL (fieldValue ev f).data)))
        (pyStrip (lowerL searchTerm.data)) = true
    · rw [if_pos hcs]
      constructor
      · intro _
        obtain ⟨tok, htok⟩ := List.exists_mem_of_ne_nil _ htokne
        exact ⟨tok, htok, hasSub_trans (htok_sub tok htok) hcs⟩
      · intro _
        rfl
    · rw [if_neg hcs, if_neg (by decide : ¬("any" : String) = "all")]
      exact List.any_eq_true
  · intro htk
    unfold matchesSearch
    rw [if_neg hterm]
    simp only [isEmpty_false_of_ne_nil h, Bool.false_eq_true, if_false]
    rw [if_neg (by decide : ¬("any" : String) = "exact"),
      if_neg (by decide : ¬("any" : String) = "fuzzy")]
    by_cases hcs : hasSub (joinSpace ((resolveSearchFields searchFields).map
        (fun f => lowerL (fieldValue ev f).data)))
        (pyStrip (lowerL searchTerm.data)) = true
    · rw [if_pos hcs]
    · rw [if_neg hcs]
      rw [htk]
      simp

/-- Witness for C7 (amended): the two-token search `"baby story"` matches a
record containing both tokens in its searchable fields, in `all` mode via the
every-token direction and in `any` mode via the some-token direction with a
non-empty token list. -/
theorem search_mode_all_any_semantics_witness :
    matchesSearch "baby story" "all" [] (fun _ _ => 0) searchSample = true ∧
    matchesSearch "baby story" "any" [] (fun _ _ => 0) searchSample
      = true := by
  have hps : pyStrip (lowerL "baby story".data) = "baby story".data := by decide
  have htok : tokenizeSearch "baby story".data = ["baby".data, "story".data] := by
    simp [tokenizeSearch, pushToken, pyStrip, isWsChar, quoteChar,
      List.takeWhile, List.dropWhile]
  have hthm := search_mode_all_any_semantics "baby story" [] (fun _ _ => 0)
    searchSample (by decide)
  constructor
  · refine hthm.1.mpr ?_
    rw [hps, htok]
    intro tok htokmem
    rcases List.mem_cons.mp htokmem with rfl | htokmem
    · decide
    · rcases List.mem_cons.mp htokmem with rfl | htokmem
      · decide
      · simp at htokmem
  · refine (hthm.2.1 ?_).mpr ?_
    · rw [hps, htok]
      simp
    · rw [hps, htok]
      exact ⟨"baby".data, List.mem_cons_self _ _, by decide⟩
